import Mathlib

/-!
# DiscretizedPath (modules/planning/common/path/discretized_path.cc)

A shallow embedding of `apollo::planning::DiscretizedPath`.

* Arc-lengths (`double` in the source) are rationals; comparing two doubles is
  exact. The two subtractions of `QueryClosestPoint` (`d0`, `d1`) round their
  result to a double: `QueryClosestPointRounded` takes that rounding as a
  parameter, `roundToDouble` is the binary64 one, and `QueryClosestPoint` is
  the reading with exact differences. Overflow to infinity and NaN are outside
  the model.
* The vector `path_points_` is a `List PathPoint`; an iterator into it is the
  offset from `begin()`, so `begin()` is `0` and `end()` is the length.
* A `CHECK` that does not hold aborts the call (`Outcome.checkFailed`);
  dereferencing a position outside the vector is `Outcome.undefinedAccess`.
* The `int` returned by `QueryClosestPoint` is an `Int`; the conversion from
  the vector's size is taken without wrap-around.
-/

namespace apollo
namespace planning

/-- Modelled from the spec: the record `common::PathPoint`, declared outside this
file: position, heading, curvature and the cumulative arc-length `s`. -/
structure PathPoint where
  x : ℚ
  y : ℚ
  z : ℚ
  theta : ℚ
  kappa : ℚ
  s : ℚ
  deriving DecidableEq

/-- The collaborators `util::interpolate` and
`util::interpolate_linear_approximation`: pure functions of two points and an
arc-length. They are declared outside this file and are parameters here. -/
abbrev Interpolator := PathPoint → PathPoint → ℚ → PathPoint

/-- What a call produces: a value, an abort at a `CHECK`, or an access outside
the vector. -/
inductive Outcome (α : Type) where
  | ok (value : α)
  | checkFailed
  | undefinedAccess
  deriving DecidableEq

/-- Nearest integer to `y`, a tie going to the even neighbour. -/
def roundNearestEven (y : ℚ) : ℤ :=
  if y - ⌊y⌋ < 1 / 2 then ⌊y⌋
  else if 1 / 2 < y - ⌊y⌋ then ⌊y⌋ + 1
  else if ⌊y⌋ % 2 = 0 then ⌊y⌋ else ⌊y⌋ + 1

/-- Exponent of the unit in the last place of a binary64 number of magnitude
`x > 0`: 53 significant bits, smallest normal exponent -1022. -/
def ulpExponent (x : ℚ) : ℤ :=
  max (Int.log 2 x) (-1022) - 52

/-- Rounding of a magnitude `x >= 0` to the nearest multiple of its unit in the
last place. -/
def roundMagnitude (x : ℚ) : ℚ :=
  if x = 0 then 0
  else (roundNearestEven (x / 2 ^ ulpExponent x) : ℚ) * 2 ^ ulpExponent x

/-- The value a `double` operation stores for the exact result `x`: binary64
round-to-nearest, ties-to-even, sign and magnitude. -/
def roundToDouble (x : ℚ) : ℚ :=
  if x < 0 then - roundMagnitude (-x) else roundMagnitude x

/-- The loop of `std::lower_bound(first, first + len, path_s, func)` with
`func(tp, path_s) = tp.s() < path_s`:
`while (len > 0) { half = len >> 1; middle = first + half;
   if (func(*middle, path_s)) { first = middle + 1; len = len - half - 1; }
   else len = half; }  return first;`
The first argument bounds the number of iterations; `none` is returned when it
is used up or when `*middle` lies outside the vector. -/
def lower_bound (pts : List PathPoint) (path_s : ℚ) : Nat → Nat → Nat → Option Nat
  | 0, first, len => if len = 0 then some first else none
  | fuel + 1, first, len =>
    if len = 0 then some first
    else
      match pts[first + len / 2]? with
      | none => none
      | some tp =>
        if tp.s < path_s then
          lower_bound pts path_s fuel (first + len / 2 + 1) (len - len / 2 - 1)
        else
          lower_bound pts path_s fuel first (len / 2)

/-- The invariant all queries rely on: `s` is non-decreasing along the vector. -/
def SortedByS (pts : List PathPoint) : Prop :=
  pts.Pairwise (fun a b => a.s ≤ b.s)

instance (pts : List PathPoint) : Decidable (SortedByS pts) := by
  unfold SortedByS; infer_instance

/-- The class `DiscretizedPath`: its only member is `path_points_`. -/
structure DiscretizedPath where
  path_points_ : List PathPoint
  deriving DecidableEq

namespace DiscretizedPath

/-- `DiscretizedPath::DiscretizedPath(std::vector<common::PathPoint>)`. -/
def create (path_points : List PathPoint) : DiscretizedPath :=
  { path_points_ := path_points }

/-- `DiscretizedPath::set_path_points`. -/
def set_path_points (_self : DiscretizedPath) (path_points : List PathPoint) :
    DiscretizedPath :=
  { path_points_ := path_points }

/-- `DiscretizedPath::Clear`. -/
def Clear (_self : DiscretizedPath) : DiscretizedPath :=
  { path_points_ := [] }

/-- `DiscretizedPath::path_points`. -/
def path_points (self : DiscretizedPath) : List PathPoint :=
  self.path_points_

/-- `DiscretizedPath::NumOfPoints`. -/
def NumOfPoints (self : DiscretizedPath) : Nat :=
  self.path_points_.length

/-- `DiscretizedPath::QueryLowerBound`: `std::lower_bound` over the whole
vector; the result is the offset of the returned iterator from `begin()`. -/
def QueryLowerBound (self : DiscretizedPath) (path_s : ℚ) : Option Nat :=
  lower_bound self.path_points_ path_s self.path_points_.length 0
    self.path_points_.length

/-- `path_points_.front()`: the element at `begin()`. -/
def front (self : DiscretizedPath) : Option PathPoint :=
  self.path_points_[0]?

/-- `path_points_.back()`: the element at `end() - 1`. -/
def back (self : DiscretizedPath) : Option PathPoint :=
  self.path_points_[self.path_points_.length - 1]?

/-- `DiscretizedPath::Evaluate`, with `util::interpolate` as a parameter. -/
def Evaluate (self : DiscretizedPath) (interpolate : Interpolator) (path_s : ℚ) :
    Outcome PathPoint :=
  if ¬ (self.path_points_.length > 1) then .checkFailed
  else
    match self.front, self.back with
    | some front, some back =>
      if ¬ (front.s ≤ path_s ∧ back.s ≤ path_s) then .checkFailed
      else
        match self.QueryLowerBound path_s with
        | none => .undefinedAccess
        | some it_lower =>
          if it_lower = 0 then .ok front
          else
            match self.path_points_[it_lower - 1]?, self.path_points_[it_lower]? with
            | some p0, some p1 => .ok (interpolate p0 p1 path_s)
            | _, _ => .undefinedAccess
    | _, _ => .undefinedAccess

/-- `DiscretizedPath::Length`. -/
def Length (self : DiscretizedPath) : ℚ :=
  if self.path_points_.isEmpty then 0
  else
    match self.front, self.back with
    | some front, some back => back.s - front.s
    | _, _ => 0

/-- `DiscretizedPath::EvaluateUsingLinearApproximation`, with
`util::interpolate_linear_approximation` as a parameter. -/
def EvaluateUsingLinearApproximation (self : DiscretizedPath)
    (interpolate_linear_approximation : Interpolator) (path_s : ℚ) :
    Outcome PathPoint :=
  if self.path_points_.isEmpty then .checkFailed
  else
    match self.QueryLowerBound path_s with
    | none => .undefinedAccess
    | some it_lower =>
      if it_lower = 0 then
        match self.front with
        | some front => .ok front
        | none => .undefinedAccess
      else if it_lower = self.path_points_.length then
        match self.back with
        | some back => .ok back
        | none => .undefinedAccess
      else
        match self.path_points_[it_lower - 1]?, self.path_points_[it_lower]? with
        | some p0, some p1 => .ok (interpolate_linear_approximation p0 p1 path_s)
        | _, _ => .undefinedAccess

/-- `DiscretizedPath::QueryClosestPoint`, with the differences `d0` and `d1`
taken exactly. -/
def QueryClosestPoint (self : DiscretizedPath) (path_s : ℚ) : Outcome Int :=
  if self.path_points_.isEmpty then .ok (-1)
  else
    match self.QueryLowerBound path_s with
    | none => .undefinedAccess
    | some it_lower =>
      if it_lower = 0 then .ok 0
      else if it_lower = self.path_points_.length then
        .ok ((self.path_points_.length : Int) - 1)
      else
        match self.path_points_[it_lower - 1]?, self.path_points_[it_lower]? with
        | some p0, some p1 =>
          let d0 := path_s - p0.s
          let d1 := p1.s - path_s
          if d0 < d1 then .ok ((it_lower : Int) - 1) else .ok (it_lower : Int)
        | _, _ => .undefinedAccess

/-- `DiscretizedPath::QueryClosestPoint`, with `double d0` and `double d1` as
the source computes them: each difference is rounded by `fl` before the test
`d0 < d1`. -/
def QueryClosestPointRounded (self : DiscretizedPath) (fl : ℚ → ℚ) (path_s : ℚ) :
    Outcome Int :=
  if self.path_points_.isEmpty then .ok (-1)
  else
    match self.QueryLowerBound path_s with
    | none => .undefinedAccess
    | some it_lower =>
      if it_lower = 0 then .ok 0
      else if it_lower = self.path_points_.length then
        .ok ((self.path_points_.length : Int) - 1)
      else
        match self.path_points_[it_lower - 1]?, self.path_points_[it_lower]? with
        | some p0, some p1 =>
          let d0 := fl (path_s - p0.s)
          let d1 := fl (p1.s - path_s)
          if d0 < d1 then .ok ((it_lower : Int) - 1) else .ok (it_lower : Int)
        | _, _ => .undefinedAccess

/-- `DiscretizedPath::PathPointAt`. -/
def PathPointAt (self : DiscretizedPath) (index : Nat) : Outcome PathPoint :=
  if ¬ (index < self.path_points_.length) then .checkFailed
  else
    match self.path_points_[index]? with
    | some p => .ok p
    | none => .undefinedAccess

/-- `DiscretizedPath::StartPoint`. -/
def StartPoint (self : DiscretizedPath) : Outcome PathPoint :=
  if self.path_points_.isEmpty then .checkFailed
  else
    match self.front with
    | some front => .ok front
    | none => .undefinedAccess

/-- `DiscretizedPath::EndPoint`. -/
def EndPoint (self : DiscretizedPath) : Outcome PathPoint :=
  if self.path_points_.isEmpty then .checkFailed
  else
    match self.back with
    | some back => .ok back
    | none => .undefinedAccess

end DiscretizedPath

/-- A point with arc-length `s` and all other fields zero. -/
def pointAt (s : ℚ) : PathPoint :=
  { x := 0, y := 0, z := 0, theta := 0, kappa := 0, s := s }

/-- The path whose points have the given arc-lengths. -/
def pathOf (ss : List ℚ) : DiscretizedPath :=
  { path_points_ := ss.map pointAt }

end planning
end apollo

namespace apollo
namespace planning

/-! ## Rounding to binary64 -/

/-- An integer rounds to itself. -/
theorem roundNearestEven_intCast (n : ℤ) : roundNearestEven (n : ℚ) = n := by
  simp [roundNearestEven]

/-- Rounding to the nearest integer is monotone. -/
theorem roundNearestEven_mono {y z : ℚ} (h : y ≤ z) :
    roundNearestEven y ≤ roundNearestEven z := by
  have hfl : ⌊y⌋ ≤ ⌊z⌋ := Int.floor_mono h
  have hy1 : roundNearestEven y ≤ ⌊y⌋ + 1 := by
    unfold roundNearestEven; split_ifs <;> omega
  have hz0 : ⌊z⌋ ≤ roundNearestEven z := by
    unfold roundNearestEven; split_ifs <;> omega
  rcases lt_or_eq_of_le hfl with hlt | heq
  · omega
  · unfold roundNearestEven
    rw [heq]
    have hyz : y - (⌊z⌋ : ℚ) ≤ z - (⌊z⌋ : ℚ) := by linarith
    split_ifs <;> first | omega | (exfalso; linarith)

/-- A non-negative number rounds to a non-negative integer. -/
theorem roundNearestEven_nonneg {y : ℚ} (h : 0 ≤ y) : 0 ≤ roundNearestEven y := by
  have := roundNearestEven_mono h
  rwa [show ((0 : ℚ)) = ((0 : ℤ) : ℚ) by simp, roundNearestEven_intCast] at this

/-- The unit in the last place does not shrink as the magnitude grows. -/
theorem ulpExponent_mono {x y : ℚ} (hx : 0 < x) (h : x ≤ y) :
    ulpExponent x ≤ ulpExponent y := by
  unfold ulpExponent
  have := Int.log_mono_right (b := 2) hx h
  omega

/-- A non-negative magnitude rounds to a non-negative value. -/
theorem roundMagnitude_nonneg {x : ℚ} (h : 0 ≤ x) : 0 ≤ roundMagnitude x := by
  unfold roundMagnitude
  split_ifs
  · exact le_refl _
  · apply mul_nonneg
    · exact_mod_cast roundNearestEven_nonneg (div_nonneg h (le_of_lt (zpow_pos (by norm_num) _)))
    · exact le_of_lt (zpow_pos (by norm_num) _)

/-- A magnitude rounds to at most the next power of two. -/
theorem roundMagnitude_upper {x : ℚ} (hx : 0 < x) :
    roundMagnitude x ≤ 2 ^ (ulpExponent x + 53) := by
  have hq : (0 : ℚ) < 2 ^ ulpExponent x := zpow_pos (by norm_num) _
  have hlt : x < 2 ^ (Int.log 2 x + 1) := by
    simpa using Int.lt_zpow_succ_log_self (b := 2) (by norm_num) x
  have hle : x ≤ 2 ^ (ulpExponent x + 53) := by
    refine le_trans (le_of_lt hlt) (zpow_le_zpow_right₀ (by norm_num) ?_)
    unfold ulpExponent
    omega
  have hdiv : x / 2 ^ ulpExponent x ≤ (((2 : ℤ) ^ 53 : ℤ) : ℚ) := by
    rw [div_le_iff₀ hq]
    rw [zpow_add₀ (by norm_num : (2 : ℚ) ≠ 0)] at hle
    push_cast
    linarith [hle, mul_comm ((2 : ℚ) ^ ulpExponent x) ((2 : ℚ) ^ (53 : ℤ))]
  have hr := roundNearestEven_mono hdiv
  rw [roundNearestEven_intCast] at hr
  have hr' : (roundNearestEven (x / 2 ^ ulpExponent x) : ℚ) ≤ 2 ^ (53 : ℤ) := by
    exact_mod_cast hr
  unfold roundMagnitude
  rw [if_neg (ne_of_gt hx), zpow_add₀ (by norm_num : (2 : ℚ) ≠ 0), mul_comm ((2 : ℚ) ^ ulpExponent x)]
  exact mul_le_mul_of_nonneg_right hr' (le_of_lt hq)

/-- A normal magnitude rounds to at least the power of two below it. -/
theorem roundMagnitude_lower {x : ℚ} (hx : 0 < x) (hn : -1022 ≤ Int.log 2 x) :
    2 ^ (ulpExponent x + 52) ≤ roundMagnitude x := by
  have hq : (0 : ℚ) < 2 ^ ulpExponent x := zpow_pos (by norm_num) _
  have hu : ulpExponent x + 52 = Int.log 2 x := by
    unfold ulpExponent
    omega
  have hle : (2 : ℚ) ^ (ulpExponent x + 52) ≤ x := by
    rw [hu]
    simpa using Int.zpow_log_le_self (b := 2) (by norm_num) hx
  have hdiv : (((2 : ℤ) ^ 52 : ℤ) : ℚ) ≤ x / 2 ^ ulpExponent x := by
    rw [le_div_iff₀ hq]
    rw [zpow_add₀ (by norm_num : (2 : ℚ) ≠ 0)] at hle
    push_cast
    linarith [hle, mul_comm ((2 : ℚ) ^ ulpExponent x) ((2 : ℚ) ^ (52 : ℤ))]
  have hr := roundNearestEven_mono hdiv
  rw [roundNearestEven_intCast] at hr
  have hr' : (2 : ℚ) ^ (52 : ℤ) ≤ (roundNearestEven (x / 2 ^ ulpExponent x) : ℚ) := by
    exact_mod_cast hr
  unfold roundMagnitude
  rw [if_neg (ne_of_gt hx), zpow_add₀ (by norm_num : (2 : ℚ) ≠ 0), mul_comm ((2 : ℚ) ^ ulpExponent x)]
  exact mul_le_mul_of_nonneg_right hr' (le_of_lt hq)

/-- Rounding of magnitudes is monotone. -/
theorem roundMagnitude_mono {x y : ℚ} (hx : 0 ≤ x) (h : x ≤ y) :
    roundMagnitude x ≤ roundMagnitude y := by
  rcases eq_or_lt_of_le hx with h0 | hpos
  · rw [← h0]
    simpa [roundMagnitude] using roundMagnitude_nonneg (le_trans hx h)
  · have hy : 0 < y := lt_of_lt_of_le hpos h
    have hexp := ulpExponent_mono hpos h
    rcases eq_or_lt_of_le hexp with heq | hlt
    · unfold roundMagnitude
      rw [if_neg (ne_of_gt hpos), if_neg (ne_of_gt hy), heq]
      have hq : (0 : ℚ) < 2 ^ ulpExponent y := zpow_pos (by norm_num) _
      have hdiv : x / 2 ^ ulpExponent y ≤ y / 2 ^ ulpExponent y :=
        div_le_div_of_nonneg_right h (le_of_lt hq)
      have hr : (roundNearestEven (x / 2 ^ ulpExponent y) : ℚ)
          ≤ (roundNearestEven (y / 2 ^ ulpExponent y) : ℚ) := by
        exact_mod_cast roundNearestEven_mono hdiv
      exact mul_le_mul_of_nonneg_right hr (le_of_lt hq)
    · have hn : -1022 ≤ Int.log 2 y := by
        unfold ulpExponent at hlt
        omega
      refine le_trans (roundMagnitude_upper hpos) (le_trans ?_ (roundMagnitude_lower hy hn))
      exact zpow_le_zpow_right₀ (by norm_num) (by omega)

/-- Rounding to binary64 is monotone. -/
theorem roundToDouble_monotone : Monotone roundToDouble := by
  intro x y h
  unfold roundToDouble
  by_cases hx : x < 0
  · by_cases hy : y < 0
    · rw [if_pos hx, if_pos hy]
      exact neg_le_neg (roundMagnitude_mono (by linarith) (by linarith))
    · rw [if_pos hx, if_neg hy]
      have h1 := roundMagnitude_nonneg (x := -x) (by linarith)
      have h2 := roundMagnitude_nonneg (x := y) (by linarith)
      linarith
  · have hy : ¬ y < 0 := by
      intro hy
      exact hx (lt_of_le_of_lt h hy)
    rw [if_neg hx, if_neg hy]
    exact roundMagnitude_mono (not_lt.mp hx) h

/-- The unit in the last place of a normal magnitude in `[2^e, 2^(e+1))`. -/
theorem ulpExponent_eq {x : ℚ} (e : ℤ) (he : -1022 ≤ e) (h1 : 2 ^ e ≤ x)
    (h2 : x < 2 ^ (e + 1)) : ulpExponent x = e - 52 := by
  have hx : 0 < x := lt_of_lt_of_le (zpow_pos (by norm_num) _) h1
  have hlo : e ≤ Int.log 2 x :=
    (Int.zpow_le_iff_le_log (b := 2) (by norm_num) hx).mp (by simpa using h1)
  have hhi : Int.log 2 x < e + 1 :=
    (Int.lt_zpow_iff_log_lt (b := 2) (by norm_num) hx).mp (by simpa using h2)
  unfold ulpExponent
  omega

/-- A number within less than a half below the integer `n` rounds to `n`. -/
theorem roundNearestEven_up {y : ℚ} (n : ℤ) (h1 : (n : ℚ) - 1 / 2 < y) (h2 : y ≤ n) :
    roundNearestEven y = n := by
  rcases eq_or_lt_of_le h2 with h | h
  · rw [h, roundNearestEven_intCast]
  · have hf : ⌊y⌋ = n - 1 := by
      rw [Int.floor_eq_iff]
      push_cast
      constructor <;> linarith
    unfold roundNearestEven
    rw [hf]
    push_cast
    rw [if_neg (by linarith), if_pos (by linarith)]
    ring

/-- The double 1. -/
theorem roundToDouble_one : roundToDouble 1 = 1 := by
  have he : ulpExponent (1 : ℚ) = 0 - 52 := ulpExponent_eq 0 (by norm_num) (by norm_num) (by norm_num)
  have hr : roundNearestEven ((1 : ℚ) / 2 ^ (0 - 52 : ℤ)) = 2 ^ 52 :=
    roundNearestEven_up _ (by norm_num) (by norm_num)
  unfold roundToDouble roundMagnitude
  rw [if_neg (by norm_num), if_neg (by norm_num), he, hr]
  norm_num

/-- The difference `1 - 2^-60` is not a double; it is stored as 1. -/
theorem roundToDouble_one_sub : roundToDouble (1 - 1 / 2 ^ 60) = 1 := by
  have he : ulpExponent (1 - 1 / 2 ^ 60 : ℚ) = -1 - 52 :=
    ulpExponent_eq (-1) (by norm_num) (by norm_num) (by norm_num)
  have hr : roundNearestEven ((1 - 1 / 2 ^ 60 : ℚ) / 2 ^ (-1 - 52 : ℤ)) = 2 ^ 53 :=
    roundNearestEven_up _ (by norm_num) (by norm_num)
  unfold roundToDouble roundMagnitude
  rw [if_neg (by norm_num), if_neg (by norm_num), he, hr]
  norm_num

/-- The double `2^-60`. -/
theorem roundToDouble_two_pow_neg_sixty : roundToDouble (1 / 2 ^ 60) = 1 / 2 ^ 60 := by
  have he : ulpExponent (1 / 2 ^ 60 : ℚ) = -60 - 52 :=
    ulpExponent_eq (-60) (by norm_num) (by norm_num) (by norm_num)
  have hr : roundNearestEven ((1 / 2 ^ 60 : ℚ) / 2 ^ (-60 - 52 : ℤ)) = 2 ^ 52 :=
    roundNearestEven_up _ (by norm_num) (by norm_num)
  unfold roundToDouble roundMagnitude
  rw [if_neg (by norm_num), if_neg (by norm_num), he, hr]
  norm_num

/-- The double 2. -/
theorem roundToDouble_two : roundToDouble 2 = 2 := by
  have he : ulpExponent (2 : ℚ) = 1 - 52 :=
    ulpExponent_eq 1 (by norm_num) (by norm_num) (by norm_num)
  have hr : roundNearestEven ((2 : ℚ) / 2 ^ (1 - 52 : ℤ)) = 2 ^ 52 :=
    roundNearestEven_up _ (by norm_num) (by norm_num)
  unfold roundToDouble roundMagnitude
  rw [if_neg (by norm_num), if_neg (by norm_num), he, hr]
  norm_num

/-! ## The binary search -/

/-- Sortedness read by index. -/
theorem sorted_getElem_le (pts : List PathPoint) (hs : SortedByS pts) :
    ∀ i j (hi : i < pts.length) (hj : j < pts.length), i ≤ j → pts[i].s ≤ pts[j].s := by
  intro i j hi hj hij
  rcases Nat.eq_or_lt_of_le hij with h | h
  · subst h; exact le_refl _
  · exact (List.pairwise_iff_getElem.mp hs) i j hi hj h

/-- With at least `len` iterations allowed and the range inside the vector, the
search returns a position of the range (sorted or not). -/
theorem lower_bound_range (pts : List PathPoint) (t : ℚ) :
    ∀ (fuel first len : Nat), len ≤ fuel → first + len ≤ pts.length →
      ∃ k, lower_bound pts t fuel first len = some k ∧ first ≤ k ∧ k ≤ first + len := by
  intro fuel
  induction fuel with
  | zero =>
    intro first len hf _
    have h0 : len = 0 := by omega
    subst h0
    exact ⟨first, by simp [lower_bound], le_refl _, by omega⟩
  | succ fuel ih =>
    intro first len hf hb
    by_cases h0 : len = 0
    · subst h0
      exact ⟨first, by simp [lower_bound], le_refl _, by omega⟩
    · have hm : first + len / 2 < pts.length := by omega
      by_cases hc : pts[first + len / 2].s < t
      · obtain ⟨k, hk, h1, h2⟩ :=
          ih (first + len / 2 + 1) (len - len / 2 - 1) (by omega) (by omega)
        refine ⟨k, ?_, by omega, by omega⟩
        simp [lower_bound, h0, List.getElem?_eq_getElem hm, hc, hk]
      · obtain ⟨k, hk, h1, h2⟩ := ih first (len / 2) (by omega) (by omega)
        refine ⟨k, ?_, h1, by omega⟩
        simp [lower_bound, h0, List.getElem?_eq_getElem hm, hc, hk]

/-- On a sorted vector the search keeps the partition: everything before the
result is below the target, everything from the result on is not. -/
theorem lower_bound_partition (pts : List PathPoint) (t : ℚ) (hs : SortedByS pts) :
    ∀ (fuel first len : Nat), len ≤ fuel → first + len ≤ pts.length →
      (∀ j (hj : j < pts.length), j < first → pts[j].s < t) →
      (∀ j (hj : j < pts.length), first + len ≤ j → t ≤ pts[j].s) →
      ∃ k, lower_bound pts t fuel first len = some k ∧ k ≤ pts.length ∧
        (∀ j (hj : j < pts.length), j < k → pts[j].s < t) ∧
        (∀ j (hj : j < pts.length), k ≤ j → t ≤ pts[j].s) := by
  have hsorted := sorted_getElem_le pts hs
  intro fuel
  induction fuel with
  | zero =>
    intro first len hf hb hlo hhi
    have h0 : len = 0 := by omega
    subst h0
    exact ⟨first, by simp [lower_bound], by omega, hlo, fun j hj h => hhi j hj (by omega)⟩
  | succ fuel ih =>
    intro first len hf hb hlo hhi
    by_cases h0 : len = 0
    · subst h0
      exact ⟨first, by simp [lower_bound], by omega, hlo, fun j hj h => hhi j hj (by omega)⟩
    · have hm : first + len / 2 < pts.length := by omega
      by_cases hc : pts[first + len / 2].s < t
      · obtain ⟨k, hk, h1, h2, h3⟩ :=
          ih (first + len / 2 + 1) (len - len / 2 - 1) (by omega) (by omega)
            (fun j hj h => lt_of_le_of_lt (hsorted j _ hj hm (by omega)) hc)
            (fun j hj h => hhi j hj (by omega))
        refine ⟨k, ?_, h1, h2, h3⟩
        simp [lower_bound, h0, List.getElem?_eq_getElem hm, hc, hk]
      · obtain ⟨k, hk, h1, h2, h3⟩ :=
          ih first (len / 2) (by omega) (by omega) hlo
            (fun j hj h => le_trans (not_lt.mp hc) (hsorted _ j hm hj (by omega)))
        refine ⟨k, ?_, h1, h2, h3⟩
        simp [lower_bound, h0, List.getElem?_eq_getElem hm, hc, hk]

namespace DiscretizedPath

/-- On a sorted path `QueryLowerBound` returns the partition point. -/
theorem QueryLowerBound_sorted (self : DiscretizedPath) (t : ℚ)
    (hs : SortedByS self.path_points_) :
    ∃ k, self.QueryLowerBound t = some k ∧ k ≤ self.path_points_.length ∧
      (∀ j (hj : j < self.path_points_.length), j < k → self.path_points_[j].s < t) ∧
      (∀ j (hj : j < self.path_points_.length), k ≤ j → t ≤ self.path_points_[j].s) := by
  unfold QueryLowerBound
  exact lower_bound_partition self.path_points_ t hs _ 0 _ (le_refl _) (by omega)
    (fun j _ h => absurd h (Nat.not_lt_zero j)) (fun j hj h => by omega)

/-- A position that splits a sorted path at the target is the one
`QueryLowerBound` returns. -/
theorem QueryLowerBound_unique (self : DiscretizedPath) (t : ℚ)
    (hs : SortedByS self.path_points_) (k : Nat) (hk : k ≤ self.path_points_.length)
    (hlo : ∀ j (hj : j < self.path_points_.length), j < k → self.path_points_[j].s < t)
    (hhi : ∀ j (hj : j < self.path_points_.length), k ≤ j → t ≤ self.path_points_[j].s) :
    self.QueryLowerBound t = some k := by
  obtain ⟨m, hm, hmn, hmlo, hmhi⟩ := QueryLowerBound_sorted self t hs
  have : m = k := by
    rcases Nat.lt_trichotomy m k with h | h | h
    · have h1 := hlo m (by omega) h
      have h2 := hmhi m (by omega) (le_refl _)
      exact absurd h1 (not_lt.mpr h2)
    · exact h
    · have h1 := hmlo k (by omega) h
      have h2 := hhi k (by omega) (le_refl _)
      exact absurd h1 (not_lt.mpr h2)
  rw [hm, this]

/-- `QueryClosestPoint` when the lower bound is `begin()`. -/
theorem QueryClosestPoint_begin (self : DiscretizedPath) (t : ℚ)
    (hne : self.path_points_ ≠ []) (hk : self.QueryLowerBound t = some 0) :
    self.QueryClosestPoint t = .ok 0 := by
  simp [QueryClosestPoint, hne, hk]

/-- `QueryClosestPoint` when the lower bound is `end()`. -/
theorem QueryClosestPoint_end (self : DiscretizedPath) (t : ℚ)
    (hne : self.path_points_ ≠ [])
    (hk : self.QueryLowerBound t = some self.path_points_.length) :
    self.QueryClosestPoint t = .ok ((self.path_points_.length : Int) - 1) := by
  have hpos : self.path_points_.length ≠ 0 := by
    intro h; exact hne (List.length_eq_zero.mp h)
  simp [QueryClosestPoint, hne, hk, hpos]

/-- `QueryClosestPoint` when the lower bound is strictly inside the vector. -/
theorem QueryClosestPoint_inner (self : DiscretizedPath) (t : ℚ) (k : Nat)
    (hk0 : k ≠ 0) (hkn : k < self.path_points_.length)
    (hk : self.QueryLowerBound t = some k) :
    self.QueryClosestPoint t =
      if t - self.path_points_[k - 1].s < self.path_points_[k].s - t
      then .ok ((k : Int) - 1) else .ok (k : Int) := by
  have hne : self.path_points_ ≠ [] := by
    intro h; rw [h] at hkn; simp at hkn
  have hk1 : k - 1 < self.path_points_.length := by omega
  simp [QueryClosestPoint, hne, hk, hk0, Nat.ne_of_lt hkn,
    List.getElem?_eq_getElem hkn, List.getElem?_eq_getElem hk1]

/-- `EvaluateUsingLinearApproximation` when the lower bound is `begin()`. -/
theorem EvaluateUsingLinearApproximation_begin (self : DiscretizedPath)
    (f : Interpolator) (t : ℚ) (hpos : 0 < self.path_points_.length)
    (hk : self.QueryLowerBound t = some 0) :
    self.EvaluateUsingLinearApproximation f t = .ok self.path_points_[0] := by
  have hne : self.path_points_ ≠ [] := List.length_pos.mp hpos
  simp [EvaluateUsingLinearApproximation, hne, hk, front, List.getElem?_eq_getElem hpos]

/-- `EvaluateUsingLinearApproximation` when the lower bound is `end()`. -/
theorem EvaluateUsingLinearApproximation_end (self : DiscretizedPath)
    (f : Interpolator) (t : ℚ) (hpos : 0 < self.path_points_.length)
    (hk : self.QueryLowerBound t = some self.path_points_.length) :
    self.EvaluateUsingLinearApproximation f t
      = .ok self.path_points_[self.path_points_.length - 1] := by
  have hne : self.path_points_ ≠ [] := List.length_pos.mp hpos
  have hl : self.path_points_.length - 1 < self.path_points_.length := by omega
  simp [EvaluateUsingLinearApproximation, hne, hk, back, Nat.ne_of_gt hpos,
    List.getElem?_eq_getElem hl]

/-- `EvaluateUsingLinearApproximation` when the lower bound is strictly inside
the vector. -/
theorem EvaluateUsingLinearApproximation_inner (self : DiscretizedPath)
    (f : Interpolator) (t : ℚ) (k : Nat) (hk0 : k ≠ 0)
    (hkn : k < self.path_points_.length) (hk : self.QueryLowerBound t = some k) :
    self.EvaluateUsingLinearApproximation f t
      = .ok (f self.path_points_[k - 1] self.path_points_[k] t) := by
  have hne : self.path_points_ ≠ [] := by
    intro h; rw [h] at hkn; simp at hkn
  have hk1 : k - 1 < self.path_points_.length := by omega
  simp [EvaluateUsingLinearApproximation, hne, hk, hk0, Nat.ne_of_lt hkn,
    List.getElem?_eq_getElem hkn, List.getElem?_eq_getElem hk1]

/-- On a sorted path with a target equal to a stored arc-length, the lower bound
is the first index holding that arc-length. -/
theorem QueryLowerBound_hit (self : DiscretizedPath) (i : Nat)
    (hi : i < self.path_points_.length) (hs : SortedByS self.path_points_) :
    ∃ k, ∃ hk : k < self.path_points_.length,
      self.QueryLowerBound self.path_points_[i].s = some k ∧ k ≤ i ∧
      self.path_points_[k].s = self.path_points_[i].s ∧
      ∀ j (hj : j < self.path_points_.length), j < k →
        self.path_points_[j].s < self.path_points_[i].s := by
  obtain ⟨k, hk, _, hlo, hhi⟩ := QueryLowerBound_sorted self self.path_points_[i].s hs
  have hki : k ≤ i := by
    by_contra hcon
    exact absurd (hlo i hi (by omega)) (lt_irrefl _)
  have hkn : k < self.path_points_.length := by omega
  refine ⟨k, hkn, hk, hki, le_antisymm ?_ (hhi k hkn (le_refl _)), hlo⟩
  exact sorted_getElem_le self.path_points_ hs k i hkn hi hki

/-- On every path, sorted or not, `QueryLowerBound` returns a position between
`begin()` and `end()`. -/
theorem QueryLowerBound_range (self : DiscretizedPath) (t : ℚ) :
    ∃ k, self.QueryLowerBound t = some k ∧ k ≤ self.path_points_.length := by
  obtain ⟨k, hk, _, h2⟩ :=
    lower_bound_range self.path_points_ t self.path_points_.length 0
      self.path_points_.length (le_refl _) (by omega)
  exact ⟨k, hk, by omega⟩

/-- Given the lower bound `k`, `QueryClosestPoint` on a non-empty path returns
an index of the path that is `k - 1` or `k`. -/
theorem QueryClosestPoint_near_lower_bound (self : DiscretizedPath) (t : ℚ) (k : Nat)
    (hpos : 0 < self.path_points_.length) (hkn : k ≤ self.path_points_.length)
    (hk : self.QueryLowerBound t = some k) :
    ∃ r : Nat, self.QueryClosestPoint t = .ok (r : Int) ∧
      r < self.path_points_.length ∧ k ≤ r + 1 ∧ r ≤ k := by
  have hne : self.path_points_ ≠ [] := List.length_pos.mp hpos
  by_cases hk0 : k = 0
  · subst hk0
    exact ⟨0, by simpa using QueryClosestPoint_begin self t hne hk, hpos, by omega,
      le_refl _⟩
  · by_cases hke : k = self.path_points_.length
    · subst hke
      refine ⟨self.path_points_.length - 1, ?_, by omega, by omega, by omega⟩
      rw [QueryClosestPoint_end self t hne hk]
      congr 1
      omega
    · have hkl : k < self.path_points_.length := by omega
      by_cases hd : t - self.path_points_[k - 1].s < self.path_points_[k].s - t
      · refine ⟨k - 1, ?_, by omega, by omega, by omega⟩
        rw [QueryClosestPoint_inner self t k hk0 hkl hk, if_pos hd]
        congr 1
        omega
      · refine ⟨k, ?_, hkl, by omega, le_refl _⟩
        rw [QueryClosestPoint_inner self t k hk0 hkl hk, if_neg hd]

/-- With the identity as rounding, `QueryClosestPointRounded` is
`QueryClosestPoint`. -/
theorem QueryClosestPointRounded_id (self : DiscretizedPath) (t : ℚ) :
    self.QueryClosestPointRounded id t = self.QueryClosestPoint t := rfl

/-- `QueryClosestPointRounded` when the lower bound is `begin()`. -/
theorem QueryClosestPointRounded_begin (self : DiscretizedPath) (fl : ℚ → ℚ) (t : ℚ)
    (hne : self.path_points_ ≠ []) (hk : self.QueryLowerBound t = some 0) :
    self.QueryClosestPointRounded fl t = .ok 0 := by
  simp [QueryClosestPointRounded, hne, hk]

/-- `QueryClosestPointRounded` when the lower bound is `end()`. -/
theorem QueryClosestPointRounded_end (self : DiscretizedPath) (fl : ℚ → ℚ) (t : ℚ)
    (hne : self.path_points_ ≠ [])
    (hk : self.QueryLowerBound t = some self.path_points_.length) :
    self.QueryClosestPointRounded fl t = .ok ((self.path_points_.length : Int) - 1) := by
  have hpos : self.path_points_.length ≠ 0 := by
    intro h; exact hne (List.length_eq_zero.mp h)
  simp [QueryClosestPointRounded, hne, hk, hpos]

/-- `QueryClosestPointRounded` when the lower bound is strictly inside the
vector. -/
theorem QueryClosestPointRounded_inner (self : DiscretizedPath) (fl : ℚ → ℚ) (t : ℚ)
    (k : Nat) (hk0 : k ≠ 0) (hkn : k < self.path_points_.length)
    (hk : self.QueryLowerBound t = some k) :
    self.QueryClosestPointRounded fl t =
      if fl (t - self.path_points_[k - 1].s) < fl (self.path_points_[k].s - t)
      then .ok ((k : Int) - 1) else .ok (k : Int) := by
  have hne : self.path_points_ ≠ [] := by
    intro h; rw [h] at hkn; simp at hkn
  have hk1 : k - 1 < self.path_points_.length := by omega
  simp [QueryClosestPointRounded, hne, hk, hk0, Nat.ne_of_lt hkn,
    List.getElem?_eq_getElem hkn, List.getElem?_eq_getElem hk1]

end DiscretizedPath

/-- With exact differences `d0` and `d1`: on a non-empty path sorted by
non-decreasing `s`, `QueryClosestPoint` returns an index of the path whose
arc-length is at least as near to the target as that of every other stored
point. -/
theorem QueryClosestPoint_nearest_exact (self : DiscretizedPath) (t : ℚ)
    (hne : self.path_points_ ≠ []) (hs : SortedByS self.path_points_) :
    ∃ r : Nat, ∃ hr : r < self.path_points_.length,
      self.QueryClosestPoint t = .ok (r : Int) ∧
      ∀ j (hj : j < self.path_points_.length),
        |self.path_points_[r].s - t| ≤ |self.path_points_[j].s - t| := by
  obtain ⟨k, hk, hkn, hlo, hhi⟩ := DiscretizedPath.QueryLowerBound_sorted self t hs
  have hpos : 0 < self.path_points_.length := List.length_pos.mpr hne
  have hsorted := sorted_getElem_le self.path_points_ hs
  by_cases hk0 : k = 0
  · subst hk0
    refine ⟨0, hpos, ?_, ?_⟩
    · simpa using DiscretizedPath.QueryClosestPoint_begin self t hne hk
    · intro j hj
      have h0 := hhi 0 hpos (le_refl _)
      have h1 := hsorted 0 j hpos hj (Nat.zero_le _)
      rw [abs_of_nonneg (by linarith), abs_of_nonneg (by linarith)]
      linarith
  · by_cases hke : k = self.path_points_.length
    · subst hke
      refine ⟨self.path_points_.length - 1, by omega, ?_, ?_⟩
      · rw [DiscretizedPath.QueryClosestPoint_end self t hne hk]
        congr 1
        omega
      · intro j hj
        have h0 := hlo (self.path_points_.length - 1) (by omega) (by omega)
        have h1 := hsorted j (self.path_points_.length - 1) hj (by omega) (by omega)
        rw [abs_of_nonpos (by linarith), abs_of_nonpos (by linarith)]
        linarith
    · have hkn2 : k < self.path_points_.length := by omega
      have hk1 : k - 1 < self.path_points_.length := by omega
      have hprev := hlo (k - 1) hk1 (by omega)
      have hcur := hhi k hkn2 (le_refl _)
      have hdist : ∀ j (hj : j < self.path_points_.length),
          min (t - self.path_points_[k - 1].s) (self.path_points_[k].s - t)
            ≤ |self.path_points_[j].s - t| := by
        intro j hj
        by_cases hjk : j < k
        · have h1 := hsorted j (k - 1) hj hk1 (by omega)
          have h2 := hlo j hj hjk
          rw [abs_of_nonpos (by linarith)]
          exact le_trans (min_le_left _ _) (by linarith)
        · have h1 := hsorted k j hkn2 hj (by omega)
          rw [abs_of_nonneg (by linarith)]
          exact le_trans (min_le_right _ _) (by linarith)
      by_cases hd : t - self.path_points_[k - 1].s < self.path_points_[k].s - t
      · refine ⟨k - 1, hk1, ?_, ?_⟩
        · rw [DiscretizedPath.QueryClosestPoint_inner self t k hk0 hkn2 hk, if_pos hd]
          congr 1
          omega
        · intro j hj
          rw [abs_of_nonpos (by linarith)]
          have := hdist j hj
          rw [min_eq_left (le_of_lt hd)] at this
          linarith
      · refine ⟨k, hkn2, ?_, ?_⟩
        · rw [DiscretizedPath.QueryClosestPoint_inner self t k hk0 hkn2 hk, if_neg hd]
        · intro j hj
          rw [abs_of_nonneg (by linarith)]
          have := hdist j hj
          rw [min_eq_right (not_lt.mp hd)] at this
          linarith

/-! ## Claims -/

/-- C1 as stated fails once `d0` and `d1` are doubles: on the sorted path with
`s = [2^-60, 2]` and target 1 (all three are doubles) the left gap `1 - 2^-60`
is stored as 1, equal to the right gap, the test `d0 < d1` is false and
`QueryClosestPoint` returns index 1, although index 0 is strictly nearer. -/
theorem C1_nearest_counterexample :
    0 < (pathOf [1 / 2 ^ 60, 2]).NumOfPoints ∧
    SortedByS (pathOf [1 / 2 ^ 60, 2]).path_points_ ∧
    roundToDouble (1 / 2 ^ 60) = 1 / 2 ^ 60 ∧ roundToDouble 2 = 2 ∧ roundToDouble 1 = 1 ∧
    (pathOf [1 / 2 ^ 60, 2]).path_points_[0]? = some (pointAt (1 / 2 ^ 60)) ∧
    (pathOf [1 / 2 ^ 60, 2]).path_points_[1]? = some (pointAt 2) ∧
    (pathOf [1 / 2 ^ 60, 2]).QueryClosestPointRounded roundToDouble 1 = .ok 1 ∧
    |(pointAt (1 / 2 ^ 60)).s - 1| < |(pointAt 2).s - 1| := by
  have hk : (pathOf [1 / 2 ^ 60, 2]).QueryLowerBound 1 = some 1 := by
    norm_num [pathOf, pointAt, DiscretizedPath.QueryLowerBound, lower_bound]
  have hlen : 1 < (pathOf [1 / 2 ^ 60, 2]).path_points_.length := by simp [pathOf]
  have hres := DiscretizedPath.QueryClosestPointRounded_inner (pathOf [1 / 2 ^ 60, 2])
    roundToDouble 1 1 (by decide) hlen hk
  have h0 : (pathOf [1 / 2 ^ 60, 2]).path_points_[1 - 1].s = 1 / 2 ^ 60 := by
    simp [pathOf, pointAt]
  have h1 : (pathOf [1 / 2 ^ 60, 2]).path_points_[1].s = 2 := by
    simp [pathOf, pointAt]
  have hd1 : roundToDouble (2 - 1) = 1 := by
    rw [show (2 : ℚ) - 1 = 1 by norm_num]
    exact roundToDouble_one
  rw [h0, h1, roundToDouble_one_sub, hd1, if_neg (lt_irrefl _)] at hres
  refine ⟨by simp [pathOf, DiscretizedPath.NumOfPoints], ?_,
    roundToDouble_two_pow_neg_sixty, roundToDouble_two, roundToDouble_one,
    by simp [pathOf], by simp [pathOf], by simpa using hres, ?_⟩
  · norm_num [SortedByS, pathOf, pointAt]
  · norm_num [pointAt, abs_lt]

/-- C1, amended: with `d0` and `d1` rounded by a monotone rounding, on a
non-empty path sorted by non-decreasing `s`, `QueryClosestPoint` returns an
index `r` of the path whose rounded gap to the target is at most the rounded gap
of every index; in exact arc-length `r` is a nearest stored point, unless the
point before `r` is strictly nearer and the two gaps round to the same value. -/
theorem C1_QueryClosestPoint_nearest_rounded (self : DiscretizedPath) (fl : ℚ → ℚ)
    (t : ℚ) (hfl : Monotone fl) (hne : self.path_points_ ≠ [])
    (hs : SortedByS self.path_points_) :
    ∃ r : Nat, ∃ hr : r < self.path_points_.length,
      self.QueryClosestPointRounded fl t = .ok (r : Int) ∧
      (∀ j (hj : j < self.path_points_.length),
        fl |self.path_points_[r].s - t| ≤ fl |self.path_points_[j].s - t|) ∧
      ((∀ j (hj : j < self.path_points_.length),
          |self.path_points_[r].s - t| ≤ |self.path_points_[j].s - t|) ∨
        ∃ _h1 : 1 ≤ r,
          |self.path_points_[r - 1].s - t| < |self.path_points_[r].s - t| ∧
          fl |self.path_points_[r - 1].s - t| = fl |self.path_points_[r].s - t| ∧
          ∀ j (hj : j < self.path_points_.length),
            |self.path_points_[r - 1].s - t| ≤ |self.path_points_[j].s - t|) := by
  obtain ⟨k, hk, hkn, hlo, hhi⟩ := DiscretizedPath.QueryLowerBound_sorted self t hs
  have hpos : 0 < self.path_points_.length := List.length_pos.mpr hne
  have hsorted := sorted_getElem_le self.path_points_ hs
  by_cases hk0 : k = 0
  · subst hk0
    have hnear : ∀ j (hj : j < self.path_points_.length),
        |self.path_points_[0].s - t| ≤ |self.path_points_[j].s - t| := by
      intro j hj
      have h0 := hhi 0 hpos (le_refl _)
      have h1 := hsorted 0 j hpos hj (Nat.zero_le _)
      rw [abs_of_nonneg (by linarith), abs_of_nonneg (by linarith)]
      linarith
    have hres : self.QueryClosestPointRounded fl t = .ok ((0 : Nat) : Int) := by
      simpa using DiscretizedPath.QueryClosestPointRounded_begin self fl t hne hk
    exact ⟨0, hpos, hres, fun j hj => hfl (hnear j hj), Or.inl hnear⟩
  · by_cases hke : k = self.path_points_.length
    · subst hke
      have hl : self.path_points_.length - 1 < self.path_points_.length := by omega
      have hnear : ∀ j (hj : j < self.path_points_.length),
          |self.path_points_[self.path_points_.length - 1].s - t|
            ≤ |self.path_points_[j].s - t| := by
        intro j hj
        have h0 := hlo (self.path_points_.length - 1) hl (by omega)
        have h1 := hsorted j (self.path_points_.length - 1) hj hl (by omega)
        have h2 := hlo j hj hj
        rw [abs_of_nonpos (by linarith), abs_of_nonpos (by linarith)]
        linarith
      refine ⟨self.path_points_.length - 1, hl, ?_, fun j hj => hfl (hnear j hj),
        Or.inl hnear⟩
      rw [DiscretizedPath.QueryClosestPointRounded_end self fl t hne hk]
      congr 1
      omega
    · have hkn2 : k < self.path_points_.length := by omega
      have hk1 : k - 1 < self.path_points_.length := by omega
      have hprev := hlo (k - 1) hk1 (by omega)
      have hcur := hhi k hkn2 (le_refl _)
      have habs0 : |self.path_points_[k - 1].s - t| = t - self.path_points_[k - 1].s := by
        rw [abs_of_nonpos (by linarith)]
        ring
      have habs1 : |self.path_points_[k].s - t| = self.path_points_[k].s - t :=
        abs_of_nonneg (by linarith)
      have hbelow : ∀ j (hj : j < self.path_points_.length), j < k →
          t - self.path_points_[k - 1].s ≤ |self.path_points_[j].s - t| := by
        intro j hj hjk
        have h1 := hsorted j (k - 1) hj hk1 (by omega)
        have h2 := hlo j hj hjk
        rw [abs_of_nonpos (by linarith)]
        linarith
      have habove : ∀ j (hj : j < self.path_points_.length), k ≤ j →
          self.path_points_[k].s - t ≤ |self.path_points_[j].s - t| := by
        intro j hj hjk
        have h1 := hsorted k j hkn2 hj hjk
        rw [abs_of_nonneg (by linarith)]
        linarith
      have hres := DiscretizedPath.QueryClosestPointRounded_inner self fl t k hk0 hkn2 hk
      by_cases hd : fl (t - self.path_points_[k - 1].s) < fl (self.path_points_[k].s - t)
      · have hexact : t - self.path_points_[k - 1].s < self.path_points_[k].s - t := by
          by_contra hcon
          exact absurd hd (not_lt.mpr (hfl (not_lt.mp hcon)))
        have hnear : ∀ j (hj : j < self.path_points_.length),
            |self.path_points_[k - 1].s - t| ≤ |self.path_points_[j].s - t| := by
          intro j hj
          rw [habs0]
          by_cases hjk : j < k
          · exact hbelow j hj hjk
          · exact le_trans (le_of_lt hexact) (habove j hj (by omega))
        refine ⟨k - 1, hk1, ?_, fun j hj => hfl (hnear j hj), Or.inl hnear⟩
        rw [hres, if_pos hd]
        congr 1
        omega
      · have hfle := not_lt.mp hd
        refine ⟨k, hkn2, by rw [hres, if_neg hd], ?_, ?_⟩
        · intro j hj
          rw [habs1]
          by_cases hjk : j < k
          · exact le_trans hfle (hfl (hbelow j hj hjk))
          · exact hfl (habove j hj (by omega))
        · by_cases hexact : t - self.path_points_[k - 1].s < self.path_points_[k].s - t
          · right
            refine ⟨by omega, by rw [habs0, habs1]; exact hexact, ?_, ?_⟩
            · rw [habs0, habs1]
              exact le_antisymm (hfl (le_of_lt hexact)) hfle
            · intro j hj
              rw [habs0]
              by_cases hjk : j < k
              · exact hbelow j hj hjk
              · exact le_trans (le_of_lt hexact) (habove j hj (by omega))
          · left
            intro j hj
            rw [habs1]
            by_cases hjk : j < k
            · exact le_trans (not_lt.mp hexact) (hbelow j hj hjk)
            · exact habove j hj (by omega)

/-- C1 (amended) with the binary64 rounding, at the path with
`s = [0, 1, 2, 3]` and target `3/2`. -/
theorem C1_QueryClosestPoint_nearest_rounded_witness :
    Monotone roundToDouble ∧
    (pathOf [0, 1, 2, 3]).path_points_ ≠ [] ∧
    SortedByS (pathOf [0, 1, 2, 3]).path_points_ ∧
    ∃ r : Nat, ∃ hr : r < (pathOf [0, 1, 2, 3]).path_points_.length,
      (pathOf [0, 1, 2, 3]).QueryClosestPointRounded roundToDouble (3 / 2)
        = .ok (r : Int) ∧
      (∀ j (hj : j < (pathOf [0, 1, 2, 3]).path_points_.length),
        roundToDouble |(pathOf [0, 1, 2, 3]).path_points_[r].s - 3 / 2|
          ≤ roundToDouble |(pathOf [0, 1, 2, 3]).path_points_[j].s - 3 / 2|) ∧
      ((∀ j (hj : j < (pathOf [0, 1, 2, 3]).path_points_.length),
          |(pathOf [0, 1, 2, 3]).path_points_[r].s - 3 / 2|
            ≤ |(pathOf [0, 1, 2, 3]).path_points_[j].s - 3 / 2|) ∨
        ∃ _h1 : 1 ≤ r,
          |(pathOf [0, 1, 2, 3]).path_points_[r - 1].s - 3 / 2|
            < |(pathOf [0, 1, 2, 3]).path_points_[r].s - 3 / 2| ∧
          roundToDouble |(pathOf [0, 1, 2, 3]).path_points_[r - 1].s - 3 / 2|
            = roundToDouble |(pathOf [0, 1, 2, 3]).path_points_[r].s - 3 / 2| ∧
          ∀ j (hj : j < (pathOf [0, 1, 2, 3]).path_points_.length),
            |(pathOf [0, 1, 2, 3]).path_points_[r - 1].s - 3 / 2|
              ≤ |(pathOf [0, 1, 2, 3]).path_points_[j].s - 3 / 2|) :=
  have h1 : (pathOf [0, 1, 2, 3]).path_points_ ≠ [] := by simp [pathOf]
  have h2 : SortedByS (pathOf [0, 1, 2, 3]).path_points_ := by
    norm_num [SortedByS, pathOf, pointAt]
  ⟨roundToDouble_monotone, h1, h2,
    C1_QueryClosestPoint_nearest_rounded (pathOf [0, 1, 2, 3]) roundToDouble (3 / 2)
      roundToDouble_monotone h1 h2⟩

/-- C2 as stated fails: on the sorted path with `s = [0, 1, 2, 3]` the target
`3/2` lies strictly between the points at index 1 and 2 and is equidistant from
both, yet `QueryClosestPoint` returns 2 and not the predecessor 1. -/
theorem C2_tie_predecessor_counterexample :
    SortedByS (pathOf [0, 1, 2, 3]).path_points_ ∧
    (pathOf [0, 1, 2, 3]).path_points_[2 - 1]? = some (pointAt 1) ∧
    (pathOf [0, 1, 2, 3]).path_points_[2]? = some (pointAt 2) ∧
    (pointAt 1).s < 3 / 2 ∧ 3 / 2 < (pointAt 2).s ∧
    3 / 2 - (pointAt 1).s = (pointAt 2).s - 3 / 2 ∧
    (pathOf [0, 1, 2, 3]).QueryClosestPoint (3 / 2) ≠ .ok ((2 : Int) - 1) := by
  norm_num [SortedByS, pathOf, pointAt, DiscretizedPath.QueryClosestPoint,
    DiscretizedPath.QueryLowerBound, lower_bound]

/-- C2, amended: on a sorted path, when the target lies strictly between the
points at `i - 1` and `i` and is equidistant from both, `QueryClosestPoint`
returns `i`, the later of the two (the test `d0 < d1` is false on a tie); on
the path with `s = [0, 1, 2, 3]` and target `3/2` it returns 2. -/
theorem C2_tie_returns_successor :
    (∀ (self : DiscretizedPath) (t : ℚ) (i : Nat)
        (_hs : SortedByS self.path_points_) (_hi1 : 1 ≤ i)
        (hi : i < self.path_points_.length),
        self.path_points_[i - 1].s < t → t < self.path_points_[i].s →
        t - self.path_points_[i - 1].s = self.path_points_[i].s - t →
        self.QueryClosestPoint t = .ok (i : Int)) ∧
    (pathOf [0, 1, 2, 3]).QueryClosestPoint (3 / 2) = .ok 2 := by
  constructor
  · intro self t i hs hi1 hi hlo hhi heq
    have hsorted := sorted_getElem_le self.path_points_ hs
    have hk : self.QueryLowerBound t = some i := by
      apply DiscretizedPath.QueryLowerBound_unique self t hs i (le_of_lt hi)
      · intro j hj hji
        exact lt_of_le_of_lt (hsorted j (i - 1) hj (by omega) (by omega)) hlo
      · intro j hj hij
        exact le_trans (le_of_lt hhi) (hsorted i j hi hj hij)
    rw [DiscretizedPath.QueryClosestPoint_inner self t i (by omega) hi hk,
      if_neg (by rw [heq]; exact lt_irrefl _)]
  · norm_num [pathOf, pointAt, DiscretizedPath.QueryClosestPoint,
      DiscretizedPath.QueryLowerBound, lower_bound]

/-- C2 (amended) at the path with `s = [0, 2, 4]`, index 1 and target `1`. -/
theorem C2_tie_returns_successor_witness :
    SortedByS (pathOf [0, 2, 4]).path_points_ ∧
    (pathOf [0, 2, 4]).QueryClosestPoint 1 = .ok ((1 : Nat) : Int) :=
  have h : SortedByS (pathOf [0, 2, 4]).path_points_ := by
    norm_num [SortedByS, pathOf, pointAt]
  ⟨h, C2_tie_returns_successor.1 (pathOf [0, 2, 4]) 1 1 h (le_refl 1)
    (by simp [pathOf]) (by norm_num [pathOf, pointAt]) (by norm_num [pathOf, pointAt])
    (by norm_num [pathOf, pointAt])⟩

/-- C3: `Evaluate` gets past its two `CHECK`s exactly when the path has at least
two points and both the first and the last arc-length are at most the target;
otherwise it aborts, in particular for every target with
`front().s <= target < back().s` on a path of at least two points. -/
theorem C3_Evaluate_checks (self : DiscretizedPath) (interpolate : Interpolator)
    (t : ℚ) :
    (self.Evaluate interpolate t ≠ .checkFailed ↔
      ∃ h : 2 ≤ self.path_points_.length,
        self.path_points_[0].s ≤ t ∧
        self.path_points_[self.path_points_.length - 1].s ≤ t) ∧
    (∀ h : 2 ≤ self.path_points_.length,
      self.path_points_[0].s ≤ t →
      t < self.path_points_[self.path_points_.length - 1].s →
      self.Evaluate interpolate t = .checkFailed) := by
  by_cases hn : 2 ≤ self.path_points_.length
  · have h0 : 0 < self.path_points_.length := by omega
    have hl : self.path_points_.length - 1 < self.path_points_.length := by omega
    have hgt : self.path_points_.length > 1 := by omega
    have hf : self.front = some self.path_points_[0] := by
      simp [DiscretizedPath.front, List.getElem?_eq_getElem h0]
    have hb : self.back = some self.path_points_[self.path_points_.length - 1] := by
      simp [DiscretizedPath.back, List.getElem?_eq_getElem hl]
    by_cases hc : self.path_points_[0].s ≤ t ∧
        self.path_points_[self.path_points_.length - 1].s ≤ t
    · refine ⟨⟨fun _ => ⟨hn, hc⟩, fun _ => ?_⟩, fun _ _ h2 => absurd hc.2 (not_le.mpr h2)⟩
      unfold DiscretizedPath.Evaluate
      rw [if_neg (not_not.mpr hgt), hf, hb]
      simp only [hc, and_self, not_true_eq_false, if_false]
      cases self.QueryLowerBound t with
      | none => simp
      | some k =>
        by_cases hk : k = 0
        · simp [hk]
        · simp only [hk, if_false]
          cases self.path_points_[k - 1]? <;> cases self.path_points_[k]? <;> simp
    · have hfail : self.Evaluate interpolate t = .checkFailed := by
        unfold DiscretizedPath.Evaluate
        rw [if_neg (not_not.mpr hgt), hf, hb]
        simp only [hc, not_false_eq_true, if_true]
      exact ⟨⟨fun h => absurd hfail h, fun ⟨_, h⟩ => absurd h hc⟩, fun _ _ _ => hfail⟩
  · have hfail : self.Evaluate interpolate t = .checkFailed := by
      unfold DiscretizedPath.Evaluate
      rw [if_pos (by omega)]
    exact ⟨⟨fun h => absurd hfail h, fun ⟨h, _⟩ => absurd h hn⟩, fun h => absurd h hn⟩

/-- C3 at the path with `s = [0, 1]` and the interior target `1/2`. -/
theorem C3_Evaluate_checks_witness :
    ∃ h : 2 ≤ (pathOf [0, 1]).path_points_.length,
      (pathOf [0, 1]).path_points_[0].s ≤ 1 / 2 ∧
      1 / 2 < (pathOf [0, 1]).path_points_[(pathOf [0, 1]).path_points_.length - 1].s ∧
      (pathOf [0, 1]).Evaluate (fun p _ _ => p) (1 / 2) = .checkFailed :=
  have h : 2 ≤ (pathOf [0, 1]).path_points_.length := by simp [pathOf]
  have h1 : (pathOf [0, 1]).path_points_[0].s ≤ 1 / 2 := by norm_num [pathOf, pointAt]
  have h2 : 1 / 2 <
      (pathOf [0, 1]).path_points_[(pathOf [0, 1]).path_points_.length - 1].s := by
    norm_num [pathOf, pointAt]
  ⟨h, h1, h2, (C3_Evaluate_checks (pathOf [0, 1]) (fun p _ _ => p) (1 / 2)).2 h h1 h2⟩

/-- C4, the code at the claim's input: on the path with `s = [0, 1, 2, 3]`
`Evaluate(1.5)` aborts at the second `CHECK` (`back().s() <= path_s` is
`3 <= 1.5`), whatever the interpolation; it does not return the interpolation
of the points at index 1 and 2. -/
theorem C4_Evaluate_interior_aborts (interpolate : Interpolator) :
    (pathOf [0, 1, 2, 3]).Evaluate interpolate (3 / 2) = .checkFailed ∧
    (pathOf [0, 1, 2, 3]).Evaluate interpolate (3 / 2)
      ≠ .ok (interpolate (pointAt 1) (pointAt 2) (3 / 2)) := by
  norm_num [pathOf, pointAt, DiscretizedPath.Evaluate, DiscretizedPath.front,
    DiscretizedPath.back]
  intro h
  cases h

/-- C5, the code at a failing input: on the sorted path with `s = [0, 1]` and
target `2` both `CHECK`s of `Evaluate` hold, the lower bound is `end()`
(position 2 = `NumOfPoints()`), and `Evaluate` dereferences it. -/
theorem C5_Evaluate_dereferences_end (interpolate : Interpolator) :
    SortedByS (pathOf [0, 1]).path_points_ ∧
    (pathOf [0, 1]).Evaluate interpolate 2 ≠ .checkFailed ∧
    (pathOf [0, 1]).QueryLowerBound 2 = some (pathOf [0, 1]).NumOfPoints ∧
    (pathOf [0, 1]).path_points_[(pathOf [0, 1]).NumOfPoints]? = none ∧
    (pathOf [0, 1]).Evaluate interpolate 2 = .undefinedAccess := by
  norm_num [SortedByS, pathOf, pointAt, DiscretizedPath.Evaluate, DiscretizedPath.front,
    DiscretizedPath.back, DiscretizedPath.QueryLowerBound, DiscretizedPath.NumOfPoints,
    lower_bound]
  intro h
  cases h

/-- C6 as stated fails: on the sorted path with `s = [0, 1, 1]` the target `1`
is at the last arc-length, yet `QueryClosestPoint` returns 1, not the last
index 2. -/
theorem C6_last_index_counterexample :
    0 < (pathOf [0, 1, 1]).NumOfPoints ∧
    SortedByS (pathOf [0, 1, 1]).path_points_ ∧
    (pathOf [0, 1, 1]).path_points_[(pathOf [0, 1, 1]).NumOfPoints - 1]?
      = some (pointAt 1) ∧
    (pointAt 1).s ≤ 1 ∧
    (pathOf [0, 1, 1]).QueryClosestPoint 1 = .ok 1 ∧
    (pathOf [0, 1, 1]).QueryClosestPoint 1
      ≠ .ok (((pathOf [0, 1, 1]).NumOfPoints : Int) - 1) := by
  norm_num [SortedByS, pathOf, pointAt, DiscretizedPath.QueryClosestPoint,
    DiscretizedPath.QueryLowerBound, DiscretizedPath.NumOfPoints, lower_bound]

/-- C6, amended: on a non-empty sorted path `QueryClosestPoint` returns the last
index for every target beyond the last arc-length; for a target equal to the
last arc-length it returns the first index holding that arc-length, which is
the last index when no earlier point holds it. -/
theorem C6_QueryClosestPoint_at_or_beyond_last (self : DiscretizedPath) (t : ℚ)
    (hpos : 0 < self.path_points_.length) (hs : SortedByS self.path_points_) :
    (self.path_points_[self.path_points_.length - 1].s < t →
      self.QueryClosestPoint t = .ok ((self.path_points_.length : Int) - 1)) ∧
    (t = self.path_points_[self.path_points_.length - 1].s →
      ∃ r : Nat, ∃ hr : r < self.path_points_.length,
        self.QueryClosestPoint t = .ok (r : Int) ∧
        self.path_points_[r].s = t ∧
        ∀ j (hj : j < self.path_points_.length), j < r → self.path_points_[j].s < t) ∧
    (self.path_points_[self.path_points_.length - 1].s ≤ t →
      (∀ j (hj : j < self.path_points_.length), j < self.path_points_.length - 1 →
        self.path_points_[j].s < self.path_points_[self.path_points_.length - 1].s) →
      self.QueryClosestPoint t = .ok ((self.path_points_.length : Int) - 1)) := by
  have hne : self.path_points_ ≠ [] := List.length_pos.mp hpos
  have hl : self.path_points_.length - 1 < self.path_points_.length := by omega
  have hsorted := sorted_getElem_le self.path_points_ hs
  have hbeyond : self.path_points_[self.path_points_.length - 1].s < t →
      self.QueryClosestPoint t = .ok ((self.path_points_.length : Int) - 1) := by
    intro hlt
    apply DiscretizedPath.QueryClosestPoint_end self t hne
    apply DiscretizedPath.QueryLowerBound_unique self t hs _ (le_refl _)
    · intro j hj _
      exact lt_of_le_of_lt (hsorted j _ hj hl (by omega)) hlt
    · intro j hj h
      omega
  have hhit : t = self.path_points_[self.path_points_.length - 1].s →
      ∃ r : Nat, ∃ hr : r < self.path_points_.length,
        self.QueryClosestPoint t = .ok (r : Int) ∧
        self.path_points_[r].s = t ∧
        ∀ j (hj : j < self.path_points_.length), j < r → self.path_points_[j].s < t := by
    intro ht
    obtain ⟨k, hkn, hk, _, heq, hlo⟩ :=
      DiscretizedPath.QueryLowerBound_hit self (self.path_points_.length - 1) hl hs
    rw [← ht] at hk heq hlo
    refine ⟨k, hkn, ?_, heq, hlo⟩
    by_cases hk0 : k = 0
    · subst hk0
      simpa using DiscretizedPath.QueryClosestPoint_begin self t hne hk
    · have hprev := hlo (k - 1) (by omega) (by omega)
      rw [DiscretizedPath.QueryClosestPoint_inner self t k hk0 hkn hk,
        if_neg (by rw [heq]; linarith)]
  refine ⟨hbeyond, hhit, ?_⟩
  intro hle hstrict
  rcases lt_or_eq_of_le hle with hlt | heq
  · exact hbeyond hlt
  · obtain ⟨r, hr, hres, hrs, _⟩ := hhit heq.symm
    have : r = self.path_points_.length - 1 := by
      by_contra hcon
      have := hstrict r hr (by omega)
      rw [hrs, heq] at this
      exact absurd this (lt_irrefl _)
    rw [hres, this]
    congr 1
    omega

/-- C6 (amended) at the path with `s = [0, 1, 2, 3]` and target `3`. -/
theorem C6_QueryClosestPoint_at_or_beyond_last_witness :
    0 < (pathOf [0, 1, 2, 3]).path_points_.length ∧
    SortedByS (pathOf [0, 1, 2, 3]).path_points_ ∧
    (pathOf [0, 1, 2, 3]).QueryClosestPoint 3
      = .ok (((pathOf [0, 1, 2, 3]).path_points_.length : Int) - 1) :=
  have h1 : 0 < (pathOf [0, 1, 2, 3]).path_points_.length := by simp [pathOf]
  have h2 : SortedByS (pathOf [0, 1, 2, 3]).path_points_ := by
    norm_num [SortedByS, pathOf, pointAt]
  ⟨h1, h2, (C6_QueryClosestPoint_at_or_beyond_last (pathOf [0, 1, 2, 3]) 3 h1 h2).2.2
    (by norm_num [pathOf, pointAt])
    (by
      intro j hj hlt
      have hj3 : j < 3 := by simpa [pathOf] using hlt
      interval_cases j <;> norm_num [pathOf, pointAt])⟩

/-- C7 as stated fails: on the sorted path with `s = [0, 1]` and the target `1`,
the last arc-length, `EvaluateUsingLinearApproximation` returns what the
collaborator computes from the two points, not the last point itself. -/
theorem C7_clamp_at_last_counterexample :
    0 < (pathOf [0, 1]).NumOfPoints ∧
    SortedByS (pathOf [0, 1]).path_points_ ∧
    (pathOf [0, 1]).path_points_[(pathOf [0, 1]).NumOfPoints - 1]? = some (pointAt 1) ∧
    (pointAt 1).s ≤ 1 ∧
    (pathOf [0, 1]).EvaluateUsingLinearApproximation (fun _ _ _ => pointAt 7) 1
      = .ok (pointAt 7) ∧
    (pathOf [0, 1]).EvaluateUsingLinearApproximation (fun _ _ _ => pointAt 7) 1
      ≠ .ok (pointAt 1) := by
  norm_num [SortedByS, pathOf, pointAt, DiscretizedPath.EvaluateUsingLinearApproximation,
    DiscretizedPath.QueryLowerBound, DiscretizedPath.NumOfPoints, DiscretizedPath.front,
    DiscretizedPath.back, lower_bound]

/-- C7, amended: on a non-empty sorted path, for every collaborator,
`EvaluateUsingLinearApproximation` returns the last point unchanged for every
target beyond the last arc-length; for a target equal to the last arc-length it
returns the first point when that point already has this arc-length, and
otherwise the collaborator's value on the pair around the lower bound. -/
theorem C7_EvaluateUsingLinearApproximation_at_or_beyond_last
    (self : DiscretizedPath) (f : Interpolator) (t : ℚ)
    (hpos : 0 < self.path_points_.length) (hs : SortedByS self.path_points_) :
    (self.path_points_[self.path_points_.length - 1].s < t →
      self.EvaluateUsingLinearApproximation f t
        = .ok self.path_points_[self.path_points_.length - 1]) ∧
    (t = self.path_points_[self.path_points_.length - 1].s →
      self.path_points_[0].s = t →
      self.EvaluateUsingLinearApproximation f t = .ok self.path_points_[0]) ∧
    (t = self.path_points_[self.path_points_.length - 1].s →
      self.path_points_[0].s < t →
      ∃ k : Nat, ∃ _hk0 : 1 ≤ k, ∃ hk : k < self.path_points_.length,
        self.QueryLowerBound t = some k ∧
        self.path_points_[k - 1].s < t ∧ self.path_points_[k].s = t ∧
        self.EvaluateUsingLinearApproximation f t
          = .ok (f self.path_points_[k - 1] self.path_points_[k] t)) := by
  have hl : self.path_points_.length - 1 < self.path_points_.length := by omega
  have hsorted := sorted_getElem_le self.path_points_ hs
  refine ⟨?_, ?_, ?_⟩
  · intro hlt
    apply DiscretizedPath.EvaluateUsingLinearApproximation_end self f t hpos
    apply DiscretizedPath.QueryLowerBound_unique self t hs _ (le_refl _)
    · intro j hj _
      exact lt_of_le_of_lt (hsorted j _ hj hl (by omega)) hlt
    · intro j hj h
      omega
  · intro _ h0
    apply DiscretizedPath.EvaluateUsingLinearApproximation_begin self f t hpos
    apply DiscretizedPath.QueryLowerBound_unique self t hs 0 (Nat.zero_le _)
    · intro j _ h
      exact absurd h (Nat.not_lt_zero j)
    · intro j hj _
      rw [← h0]
      exact hsorted 0 j hpos hj (Nat.zero_le _)
  · intro ht h0
    obtain ⟨k, hkn, hk, _, heq, hlo⟩ :=
      DiscretizedPath.QueryLowerBound_hit self (self.path_points_.length - 1) hl hs
    rw [← ht] at hk heq hlo
    have hk0 : k ≠ 0 := by
      intro h
      subst h
      rw [heq] at h0
      exact absurd h0 (lt_irrefl _)
    exact ⟨k, by omega, hkn, hk, hlo (k - 1) (by omega) (by omega), heq,
      DiscretizedPath.EvaluateUsingLinearApproximation_inner self f t k hk0 hkn hk⟩

/-- C7 (amended) at the path with `s = [0, 1, 2, 3]` and target `4`. -/
theorem C7_EvaluateUsingLinearApproximation_at_or_beyond_last_witness :
    ∃ _hpos : 0 < (pathOf [0, 1, 2, 3]).path_points_.length,
      SortedByS (pathOf [0, 1, 2, 3]).path_points_ ∧
      (pathOf [0, 1, 2, 3]).path_points_[(pathOf [0, 1, 2, 3]).path_points_.length - 1].s
        < 4 ∧
      (pathOf [0, 1, 2, 3]).EvaluateUsingLinearApproximation (fun _ _ _ => pointAt 7) 4
        = .ok (pathOf [0, 1, 2, 3]).path_points_[
            (pathOf [0, 1, 2, 3]).path_points_.length - 1] :=
  have h1 : 0 < (pathOf [0, 1, 2, 3]).path_points_.length := by simp [pathOf]
  have h2 : SortedByS (pathOf [0, 1, 2, 3]).path_points_ := by
    norm_num [SortedByS, pathOf, pointAt]
  have h3 : (pathOf [0, 1, 2, 3]).path_points_[
      (pathOf [0, 1, 2, 3]).path_points_.length - 1].s < 4 := by
    norm_num [pathOf, pointAt]
  ⟨h1, h2, h3, (C7_EvaluateUsingLinearApproximation_at_or_beyond_last
    (pathOf [0, 1, 2, 3]) (fun _ _ _ => pointAt 7) 4 h1 h2).1 h3⟩

/-- C8: on a non-empty sorted path, for every target at or before the first
arc-length, `QueryClosestPoint` returns 0 and
`EvaluateUsingLinearApproximation` returns the first point unchanged, whatever
the collaborator. -/
theorem C8_at_or_before_first (self : DiscretizedPath) (f : Interpolator) (t : ℚ)
    (hpos : 0 < self.path_points_.length) (hs : SortedByS self.path_points_)
    (hle : t ≤ self.path_points_[0].s) :
    self.QueryClosestPoint t = .ok 0 ∧
    self.EvaluateUsingLinearApproximation f t = .ok self.path_points_[0] := by
  have hk : self.QueryLowerBound t = some 0 := by
    apply DiscretizedPath.QueryLowerBound_unique self t hs 0 (Nat.zero_le _)
    · intro j _ h
      exact absurd h (Nat.not_lt_zero j)
    · intro j hj _
      exact le_trans hle (sorted_getElem_le self.path_points_ hs 0 j hpos hj (Nat.zero_le _))
  exact ⟨DiscretizedPath.QueryClosestPoint_begin self t (List.length_pos.mp hpos) hk,
    DiscretizedPath.EvaluateUsingLinearApproximation_begin self f t hpos hk⟩

/-- C8 at the path with `s = [0, 1, 2, 3]` and target `-1`. -/
theorem C8_at_or_before_first_witness :
    ∃ hpos : 0 < (pathOf [0, 1, 2, 3]).path_points_.length,
      SortedByS (pathOf [0, 1, 2, 3]).path_points_ ∧
      (-1 : ℚ) ≤ (pathOf [0, 1, 2, 3]).path_points_[0].s ∧
      (pathOf [0, 1, 2, 3]).QueryClosestPoint (-1) = .ok 0 ∧
      (pathOf [0, 1, 2, 3]).EvaluateUsingLinearApproximation (fun _ _ _ => pointAt 7) (-1)
        = .ok (pathOf [0, 1, 2, 3]).path_points_[0] :=
  have h1 : 0 < (pathOf [0, 1, 2, 3]).path_points_.length := by simp [pathOf]
  have h2 : SortedByS (pathOf [0, 1, 2, 3]).path_points_ := by
    norm_num [SortedByS, pathOf, pointAt]
  have h3 : (-1 : ℚ) ≤ (pathOf [0, 1, 2, 3]).path_points_[0].s := by
    norm_num [pathOf, pointAt]
  ⟨h1, h2, h3, C8_at_or_before_first (pathOf [0, 1, 2, 3]) (fun _ _ _ => pointAt 7) (-1)
    h1 h2 h3⟩

/-- C9 as stated fails: on the sorted path with `s = [0, 1, 1, 2]` the interior
index 2 holds arc-length 1, yet `QueryClosestPoint(1)` returns 1. -/
theorem C9_exact_hit_counterexample :
    SortedByS (pathOf [0, 1, 1, 2]).path_points_ ∧
    0 < 2 ∧ 2 < (pathOf [0, 1, 1, 2]).NumOfPoints - 1 ∧
    (pathOf [0, 1, 1, 2]).path_points_[2]? = some (pointAt 1) ∧
    (pathOf [0, 1, 1, 2]).QueryClosestPoint (pointAt 1).s = .ok 1 ∧
    (pathOf [0, 1, 1, 2]).QueryClosestPoint (pointAt 1).s ≠ .ok 2 := by
  norm_num [SortedByS, pathOf, pointAt, DiscretizedPath.QueryClosestPoint,
    DiscretizedPath.QueryLowerBound, DiscretizedPath.NumOfPoints, lower_bound]

/-- C9, amended: on a sorted path, for an interior index `i`,
`QueryClosestPoint(points[i].s)` returns the first index holding that
arc-length; this is `i` itself whenever the point before `i` has a strictly
smaller arc-length. -/
theorem C9_exact_hit_first_index (self : DiscretizedPath) (i : Nat)
    (hs : SortedByS self.path_points_) (_h0 : 0 < i)
    (hi : i < self.path_points_.length - 1) :
    ∃ r : Nat, ∃ hr : r < self.path_points_.length,
      self.QueryClosestPoint self.path_points_[i].s = .ok (r : Int) ∧ r ≤ i ∧
      self.path_points_[r].s = self.path_points_[i].s ∧
      (∀ j (hj : j < self.path_points_.length), j < r →
        self.path_points_[j].s < self.path_points_[i].s) ∧
      (self.path_points_[i - 1].s < self.path_points_[i].s → r = i) := by
  have hin : i < self.path_points_.length := by omega
  have hne : self.path_points_ ≠ [] := List.length_pos.mp (by omega)
  obtain ⟨k, hkn, hk, hki, heq, hlo⟩ := DiscretizedPath.QueryLowerBound_hit self i hin hs
  refine ⟨k, hkn, ?_, hki, heq, hlo, ?_⟩
  · by_cases hk0 : k = 0
    · subst hk0
      simpa using DiscretizedPath.QueryClosestPoint_begin self _ hne hk
    · have hprev := hlo (k - 1) (by omega) (by omega)
      rw [DiscretizedPath.QueryClosestPoint_inner self _ k hk0 hkn hk,
        if_neg (by rw [heq]; linarith)]
  · intro hstrict
    by_contra hcon
    have h1 := sorted_getElem_le self.path_points_ hs k (i - 1) hkn (by omega) (by omega)
    rw [heq] at h1
    exact absurd hstrict (not_lt.mpr h1)

/-- C9 (amended) at the path with `s = [0, 1, 2, 3]` and index 2. -/
theorem C9_exact_hit_first_index_witness :
    SortedByS (pathOf [0, 1, 2, 3]).path_points_ ∧ 0 < 2 ∧
    ∃ _hi : 2 < (pathOf [0, 1, 2, 3]).path_points_.length - 1,
    ∃ r : Nat, ∃ hr : r < (pathOf [0, 1, 2, 3]).path_points_.length,
      (pathOf [0, 1, 2, 3]).QueryClosestPoint (pathOf [0, 1, 2, 3]).path_points_[2].s
        = .ok (r : Int) ∧ r ≤ 2 ∧
      (pathOf [0, 1, 2, 3]).path_points_[r].s = (pathOf [0, 1, 2, 3]).path_points_[2].s ∧
      (∀ j (hj : j < (pathOf [0, 1, 2, 3]).path_points_.length), j < r →
        (pathOf [0, 1, 2, 3]).path_points_[j].s
          < (pathOf [0, 1, 2, 3]).path_points_[2].s) ∧
      ((pathOf [0, 1, 2, 3]).path_points_[2 - 1].s
          < (pathOf [0, 1, 2, 3]).path_points_[2].s → r = 2) :=
  have h1 : SortedByS (pathOf [0, 1, 2, 3]).path_points_ := by
    norm_num [SortedByS, pathOf, pointAt]
  have h2 : 2 < (pathOf [0, 1, 2, 3]).path_points_.length - 1 := by simp [pathOf]
  ⟨h1, by decide, h2,
    C9_exact_hit_first_index (pathOf [0, 1, 2, 3]) 2 h1 (by decide) h2⟩

/-- C10: on a non-empty sorted path, for a target after the first arc-length
and at or before the last, `EvaluateUsingLinearApproximation` returns the
collaborator's value on the points at `k - 1` and `k`, where `k` is the lower
bound, `1 <= k <= last`; this pair brackets the target and is the only such
pair. For `s = [0, 1, 2, 3]` and target `3/2` the pair is index 1 and 2. -/
theorem C10_EvaluateUsingLinearApproximation_bracket :
    (∀ (self : DiscretizedPath) (f : Interpolator) (t : ℚ)
        (hpos : 0 < self.path_points_.length) (_hs : SortedByS self.path_points_),
        self.path_points_[0].s < t →
        t ≤ self.path_points_[self.path_points_.length - 1].s →
        ∃ k : Nat, ∃ _hk1 : 1 ≤ k, ∃ hk : k < self.path_points_.length,
          self.QueryLowerBound t = some k ∧
          self.EvaluateUsingLinearApproximation f t
            = .ok (f self.path_points_[k - 1] self.path_points_[k] t) ∧
          self.path_points_[k - 1].s < t ∧ t ≤ self.path_points_[k].s ∧
          ∀ (m : Nat) (_hm1 : 1 ≤ m) (hm : m < self.path_points_.length),
            self.path_points_[m - 1].s < t → t ≤ self.path_points_[m].s → m = k) ∧
    (∀ f : Interpolator,
      (pathOf [0, 1, 2, 3]).QueryLowerBound (3 / 2) = some 2 ∧
      (pathOf [0, 1, 2, 3]).path_points_[1]? = some (pointAt 1) ∧
      (pathOf [0, 1, 2, 3]).path_points_[2]? = some (pointAt 2) ∧
      (pathOf [0, 1, 2, 3]).EvaluateUsingLinearApproximation f (3 / 2)
        = .ok (f (pointAt 1) (pointAt 2) (3 / 2))) := by
  constructor
  · intro self f t hpos hs hlo0 hhi0
    have hl : self.path_points_.length - 1 < self.path_points_.length := by omega
    have hsorted := sorted_getElem_le self.path_points_ hs
    obtain ⟨k, hk, hkn, hlo, hhi⟩ := DiscretizedPath.QueryLowerBound_sorted self t hs
    have hk0 : k ≠ 0 := by
      intro h
      subst h
      exact absurd hlo0 (not_lt.mpr (hhi 0 hpos (le_refl _)))
    have hkl : k < self.path_points_.length := by
      by_contra hcon
      exact absurd (hlo (self.path_points_.length - 1) hl (by omega)) (not_lt.mpr hhi0)
    refine ⟨k, by omega, hkl, hk,
      DiscretizedPath.EvaluateUsingLinearApproximation_inner self f t k hk0 hkl hk,
      hlo (k - 1) (by omega) (by omega), hhi k hkl (le_refl _), ?_⟩
    intro m hm1 hm hmlo hmhi
    rcases Nat.lt_trichotomy m k with h | h | h
    · exact absurd (hlo m hm h) (not_lt.mpr hmhi)
    · exact h
    · have h1 := hsorted k (m - 1) hkl (by omega) (by omega)
      have h2 := hhi k hkl (le_refl _)
      exact absurd hmlo (not_lt.mpr (le_trans h2 h1))
  · intro f
    norm_num [pathOf, pointAt, DiscretizedPath.EvaluateUsingLinearApproximation,
      DiscretizedPath.QueryLowerBound, lower_bound]

/-- C10 at the path with `s = [0, 2, 4]` and target `3`. -/
theorem C10_EvaluateUsingLinearApproximation_bracket_witness :
    ∃ hpos : 0 < (pathOf [0, 2, 4]).path_points_.length,
      SortedByS (pathOf [0, 2, 4]).path_points_ ∧
      (pathOf [0, 2, 4]).path_points_[0].s < 3 ∧
      3 ≤ (pathOf [0, 2, 4]).path_points_[(pathOf [0, 2, 4]).path_points_.length - 1].s ∧
      ∃ k : Nat, ∃ _hk1 : 1 ≤ k, ∃ hk : k < (pathOf [0, 2, 4]).path_points_.length,
        (pathOf [0, 2, 4]).QueryLowerBound 3 = some k ∧
        (pathOf [0, 2, 4]).EvaluateUsingLinearApproximation (fun _ _ _ => pointAt 7) 3
          = .ok ((fun _ _ _ => pointAt 7) (pathOf [0, 2, 4]).path_points_[k - 1]
              (pathOf [0, 2, 4]).path_points_[k] 3) ∧
        (pathOf [0, 2, 4]).path_points_[k - 1].s < 3 ∧
        3 ≤ (pathOf [0, 2, 4]).path_points_[k].s ∧
        ∀ (m : Nat) (_hm1 : 1 ≤ m) (hm : m < (pathOf [0, 2, 4]).path_points_.length),
          (pathOf [0, 2, 4]).path_points_[m - 1].s < 3 →
          3 ≤ (pathOf [0, 2, 4]).path_points_[m].s → m = k :=
  have h1 : 0 < (pathOf [0, 2, 4]).path_points_.length := by simp [pathOf]
  have h2 : SortedByS (pathOf [0, 2, 4]).path_points_ := by
    norm_num [SortedByS, pathOf, pointAt]
  have h3 : (pathOf [0, 2, 4]).path_points_[0].s < 3 := by norm_num [pathOf, pointAt]
  have h4 : 3 ≤
      (pathOf [0, 2, 4]).path_points_[(pathOf [0, 2, 4]).path_points_.length - 1].s := by
    norm_num [pathOf, pointAt]
  ⟨h1, h2, h3, h4, C10_EvaluateUsingLinearApproximation_bracket.1 (pathOf [0, 2, 4])
    (fun _ _ _ => pointAt 7) 3 h1 h2 h3 h4⟩

/-- C11: `EvaluateUsingLinearApproximation` aborts exactly when the path is
empty. On every non-empty path, sorted or not, the binary search returns a
position between `begin()` and `end()`, every element access is inside the
vector, and a point is returned. -/
theorem C11_EvaluateUsingLinearApproximation_total (self : DiscretizedPath)
    (f : Interpolator) (t : ℚ) :
    (self.EvaluateUsingLinearApproximation f t = .checkFailed ↔ self.path_points_ = []) ∧
    ((∀ p, self.EvaluateUsingLinearApproximation f t ≠ .ok p) ↔ self.path_points_ = []) ∧
    self.EvaluateUsingLinearApproximation f t ≠ .undefinedAccess ∧
    (self.path_points_ ≠ [] →
      ∃ k p, self.QueryLowerBound t = some k ∧ k ≤ self.path_points_.length ∧
        self.EvaluateUsingLinearApproximation f t = .ok p) := by
  by_cases hne : self.path_points_ = []
  · have hfail : self.EvaluateUsingLinearApproximation f t = .checkFailed := by
      simp [DiscretizedPath.EvaluateUsingLinearApproximation, hne]
    refine ⟨⟨fun _ => hne, fun _ => hfail⟩, ⟨fun _ => hne, fun _ p => ?_⟩, ?_,
      fun h => absurd hne h⟩
    · rw [hfail]; intro h; cases h
    · rw [hfail]; intro h; cases h
  · have hpos : 0 < self.path_points_.length := List.length_pos.mpr hne
    obtain ⟨k, hk, hkn⟩ := DiscretizedPath.QueryLowerBound_range self t
    have hok : ∃ p, self.EvaluateUsingLinearApproximation f t = .ok p := by
      by_cases hk0 : k = 0
      · subst hk0
        exact ⟨_, DiscretizedPath.EvaluateUsingLinearApproximation_begin self f t hpos hk⟩
      · by_cases hke : k = self.path_points_.length
        · subst hke
          exact ⟨_, DiscretizedPath.EvaluateUsingLinearApproximation_end self f t hpos hk⟩
        · exact ⟨_, DiscretizedPath.EvaluateUsingLinearApproximation_inner self f t k hk0
            (by omega) hk⟩
    obtain ⟨p, hp⟩ := hok
    refine ⟨⟨fun h => ?_, fun h => absurd h hne⟩, ⟨fun h => absurd hp (h p), fun h =>
      absurd h hne⟩, ?_, fun _ => ⟨k, p, hk, hkn, hp⟩⟩
    · rw [hp] at h; cases h
    · rw [hp]; intro h; cases h

/-- C11 at the unsorted path with `s = [2, 1]` and target `3/2`. -/
theorem C11_EvaluateUsingLinearApproximation_total_witness :
    (pathOf [2, 1]).path_points_ ≠ [] ∧ ¬ SortedByS (pathOf [2, 1]).path_points_ ∧
    ∃ k p, (pathOf [2, 1]).QueryLowerBound (3 / 2) = some k ∧
      k ≤ (pathOf [2, 1]).path_points_.length ∧
      (pathOf [2, 1]).EvaluateUsingLinearApproximation (fun _ _ _ => pointAt 7) (3 / 2)
        = .ok p :=
  have h1 : (pathOf [2, 1]).path_points_ ≠ [] := by simp [pathOf]
  have h2 : ¬ SortedByS (pathOf [2, 1]).path_points_ := by
    norm_num [SortedByS, pathOf, pointAt]
  ⟨h1, h2, (C11_EvaluateUsingLinearApproximation_total (pathOf [2, 1])
    (fun _ _ _ => pointAt 7) (3 / 2)).2.2.2 h1⟩

/-- C12: on a single-point path `EvaluateUsingLinearApproximation` returns that
point for every target and every collaborator (so for `s = [5]` at `5` and at
`99`), and `Evaluate` aborts for every target at its first `CHECK`, the path
having fewer than two points. -/
theorem C12_single_point (p : PathPoint) (f g : Interpolator) (t : ℚ) :
    (DiscretizedPath.create [p]).EvaluateUsingLinearApproximation f t = .ok p ∧
    (DiscretizedPath.create [p]).Evaluate g t = .checkFailed ∧
    ¬ ((DiscretizedPath.create [p]).path_points_.length > 1) ∧
    (pathOf [5]).EvaluateUsingLinearApproximation f 5 = .ok (pointAt 5) ∧
    (pathOf [5]).EvaluateUsingLinearApproximation f 99 = .ok (pointAt 5) ∧
    (pathOf [5]).Evaluate g t = .checkFailed := by
  refine ⟨?_, ?_, ?_, ?_, ?_, ?_⟩
  · by_cases h : p.s < t <;>
      simp [DiscretizedPath.create, DiscretizedPath.EvaluateUsingLinearApproximation,
        DiscretizedPath.QueryLowerBound, DiscretizedPath.front, DiscretizedPath.back,
        lower_bound, h]
  · simp [DiscretizedPath.create, DiscretizedPath.Evaluate]
  · simp [DiscretizedPath.create]
  · norm_num [pathOf, pointAt, DiscretizedPath.EvaluateUsingLinearApproximation,
      DiscretizedPath.QueryLowerBound, DiscretizedPath.front, DiscretizedPath.back,
      lower_bound]
  · norm_num [pathOf, pointAt, DiscretizedPath.EvaluateUsingLinearApproximation,
      DiscretizedPath.QueryLowerBound, DiscretizedPath.front, DiscretizedPath.back,
      lower_bound]
  · simp [pathOf, DiscretizedPath.Evaluate]

/-- C13: `QueryClosestPoint` returns -1 on the empty path; on every non-empty
path, sorted or not, it returns an index `r` with `0 <= r <= NumOfPoints() - 1`,
at which `PathPointAt` succeeds. Hence the result is -1 exactly when the path
is empty. -/
theorem C13_QueryClosestPoint_range (self : DiscretizedPath) (t : ℚ) :
    (self.path_points_ = [] → self.QueryClosestPoint t = .ok (-1)) ∧
    (self.path_points_ ≠ [] →
      ∃ r : Nat, self.QueryClosestPoint t = .ok (r : Int) ∧
        (0 : Int) ≤ (r : Int) ∧ (r : Int) ≤ (self.NumOfPoints : Int) - 1 ∧
        ∃ hr : r < self.path_points_.length,
          self.PathPointAt r = .ok self.path_points_[r]) ∧
    (self.QueryClosestPoint t = .ok (-1) ↔ self.path_points_ = []) := by
  have hempty : self.path_points_ = [] → self.QueryClosestPoint t = .ok (-1) := by
    intro h
    simp [DiscretizedPath.QueryClosestPoint, h]
  have hfull : self.path_points_ ≠ [] →
      ∃ r : Nat, self.QueryClosestPoint t = .ok (r : Int) ∧
        (0 : Int) ≤ (r : Int) ∧ (r : Int) ≤ (self.NumOfPoints : Int) - 1 ∧
        ∃ hr : r < self.path_points_.length,
          self.PathPointAt r = .ok self.path_points_[r] := by
    intro hne
    have hpos : 0 < self.path_points_.length := List.length_pos.mpr hne
    obtain ⟨k, hk, hkn⟩ := DiscretizedPath.QueryLowerBound_range self t
    obtain ⟨r, hr, hrn, _, _⟩ :=
      DiscretizedPath.QueryClosestPoint_near_lower_bound self t k hpos hkn hk
    refine ⟨r, hr, Int.natCast_nonneg r, ?_, hrn, ?_⟩
    · unfold DiscretizedPath.NumOfPoints
      omega
    · simp [DiscretizedPath.PathPointAt, hrn, List.getElem?_eq_getElem hrn]
  refine ⟨hempty, hfull, ⟨fun h => ?_, hempty⟩⟩
  by_contra hne
  obtain ⟨r, hr, h0, _⟩ := hfull hne
  rw [hr] at h
  have : (r : Int) = -1 := by injection h
  omega

/-- C13 at the unsorted path with `s = [2, 1]` and target `3/2`. -/
theorem C13_QueryClosestPoint_range_witness :
    (pathOf [2, 1]).path_points_ ≠ [] ∧
    ∃ r : Nat, (pathOf [2, 1]).QueryClosestPoint (3 / 2) = .ok (r : Int) ∧
      (0 : Int) ≤ (r : Int) ∧ (r : Int) ≤ ((pathOf [2, 1]).NumOfPoints : Int) - 1 ∧
      ∃ hr : r < (pathOf [2, 1]).path_points_.length,
        (pathOf [2, 1]).PathPointAt r = .ok (pathOf [2, 1]).path_points_[r] :=
  have h1 : (pathOf [2, 1]).path_points_ ≠ [] := by simp [pathOf]
  ⟨h1, (C13_QueryClosestPoint_range (pathOf [2, 1]) (3 / 2)).2.1 h1⟩

/-- C14: `PathPointAt(index)` aborts exactly when `index >= NumOfPoints()` and
returns `points[index]` for every smaller index; so it aborts at
`NumOfPoints()` and at `NumOfPoints() + 5`, and succeeds at
`NumOfPoints() - 1` on a non-empty path. -/
theorem C14_PathPointAt (self : DiscretizedPath) (index : Nat) :
    (self.PathPointAt index = .checkFailed ↔ self.NumOfPoints ≤ index) ∧
    ((∀ p, self.PathPointAt index ≠ .ok p) ↔ self.NumOfPoints ≤ index) ∧
    (∀ h : index < self.path_points_.length,
      self.PathPointAt index = .ok self.path_points_[index]) ∧
    self.PathPointAt self.NumOfPoints = .checkFailed ∧
    self.PathPointAt (self.NumOfPoints + 5) = .checkFailed ∧
    (∀ h : 0 < self.path_points_.length,
      self.PathPointAt (self.NumOfPoints - 1)
        = .ok self.path_points_[self.path_points_.length - 1]) := by
  have hin : ∀ (i : Nat) (h : i < self.path_points_.length),
      self.PathPointAt i = .ok self.path_points_[i] := by
    intro i h
    simp [DiscretizedPath.PathPointAt, h, List.getElem?_eq_getElem h]
  have hout : ∀ i : Nat, self.path_points_.length ≤ i →
      self.PathPointAt i = .checkFailed := by
    intro i h
    simp [DiscretizedPath.PathPointAt, Nat.not_lt.mpr h]
  refine ⟨?_, ?_, hin index, hout _ (le_refl _), hout _ (by
    unfold DiscretizedPath.NumOfPoints; omega), fun h => ?_⟩
  rotate_left 2
  · unfold DiscretizedPath.NumOfPoints
    exact hin _ (by omega)
  · unfold DiscretizedPath.NumOfPoints
    constructor
    · intro h
      by_contra hcon
      rw [hin index (by omega)] at h
      cases h
    · exact hout index
  · unfold DiscretizedPath.NumOfPoints
    constructor
    · intro h
      by_contra hcon
      exact h _ (hin index (by omega))
    · intro h q hq
      rw [hout index h] at hq
      cases hq

/-- C14 at the path with `s = [0, 1, 2, 3]` and index 3, the last one. -/
theorem C14_PathPointAt_witness :
    ∃ h : 3 < (pathOf [0, 1, 2, 3]).path_points_.length,
      (pathOf [0, 1, 2, 3]).PathPointAt 3 = .ok (pathOf [0, 1, 2, 3]).path_points_[3] :=
  have h : 3 < (pathOf [0, 1, 2, 3]).path_points_.length := by simp [pathOf]
  ⟨h, (C14_PathPointAt (pathOf [0, 1, 2, 3]) 3).2.2.1 h⟩

/-- C15: `StartPoint` and `EndPoint` each abort exactly when `NumOfPoints()` is
0; on a non-empty path they return the first and the last point. -/
theorem C15_StartPoint_EndPoint (self : DiscretizedPath) :
    (self.StartPoint = .checkFailed ↔ self.NumOfPoints = 0) ∧
    (self.EndPoint = .checkFailed ↔ self.NumOfPoints = 0) ∧
    ((∀ p, self.StartPoint ≠ .ok p) ↔ self.NumOfPoints = 0) ∧
    ((∀ p, self.EndPoint ≠ .ok p) ↔ self.NumOfPoints = 0) ∧
    (∀ h : 0 < self.path_points_.length,
      self.StartPoint = .ok self.path_points_[0] ∧
      self.EndPoint = .ok self.path_points_[self.path_points_.length - 1]) := by
  unfold DiscretizedPath.NumOfPoints
  by_cases hn : self.path_points_.length = 0
  · have hnil : self.path_points_ = [] := List.length_eq_zero.mp hn
    have h1 : self.StartPoint = .checkFailed := by
      simp [DiscretizedPath.StartPoint, hnil]
    have h2 : self.EndPoint = .checkFailed := by
      simp [DiscretizedPath.EndPoint, hnil]
    refine ⟨⟨fun _ => hn, fun _ => h1⟩, ⟨fun _ => hn, fun _ => h2⟩,
      ⟨fun _ => hn, fun _ p hp => ?_⟩, ⟨fun _ => hn, fun _ p hp => ?_⟩,
      fun h => absurd hn (Nat.ne_of_gt h)⟩
    · rw [h1] at hp; cases hp
    · rw [h2] at hp; cases hp
  · have hpos : 0 < self.path_points_.length := Nat.pos_of_ne_zero hn
    have hne : self.path_points_ ≠ [] := List.length_pos.mp hpos
    have hl : self.path_points_.length - 1 < self.path_points_.length := by omega
    have h1 : self.StartPoint = .ok self.path_points_[0] := by
      simp [DiscretizedPath.StartPoint, DiscretizedPath.front, hne,
        List.getElem?_eq_getElem hpos]
    have h2 : self.EndPoint = .ok self.path_points_[self.path_points_.length - 1] := by
      simp [DiscretizedPath.EndPoint, DiscretizedPath.back, hne,
        List.getElem?_eq_getElem hl]
    refine ⟨⟨fun h => ?_, fun h => absurd h hn⟩, ⟨fun h => ?_, fun h => absurd h hn⟩,
      ⟨fun h => absurd h1 (h _), fun h => absurd h hn⟩,
      ⟨fun h => absurd h2 (h _), fun h => absurd h hn⟩, fun _ => ⟨h1, h2⟩⟩
    · rw [h1] at h; cases h
    · rw [h2] at h; cases h

/-- C15 at the path with `s = [0, 1, 2, 3]`. -/
theorem C15_StartPoint_EndPoint_witness :
    ∃ h : 0 < (pathOf [0, 1, 2, 3]).path_points_.length,
      (pathOf [0, 1, 2, 3]).StartPoint = .ok (pathOf [0, 1, 2, 3]).path_points_[0] ∧
      (pathOf [0, 1, 2, 3]).EndPoint
        = .ok (pathOf [0, 1, 2, 3]).path_points_[
            (pathOf [0, 1, 2, 3]).path_points_.length - 1] :=
  have h : 0 < (pathOf [0, 1, 2, 3]).path_points_.length := by simp [pathOf]
  ⟨h, (C15_StartPoint_EndPoint (pathOf [0, 1, 2, 3])).2.2.2.2 h⟩

/-- C16: `Length` is 0 on the empty path and, on every non-empty path, the
arc-length of `EndPoint()` minus that of `StartPoint()`, that is
`points[last].s - points[0].s`; it is 3 for `s = [0, 1, 2, 3]` and 0 for a
single point. -/
theorem C16_Length (self : DiscretizedPath) :
    (self.path_points_ = [] → self.Length = 0) ∧
    (∀ h : 0 < self.path_points_.length,
      self.StartPoint = .ok self.path_points_[0] ∧
      self.EndPoint = .ok self.path_points_[self.path_points_.length - 1] ∧
      self.Length
        = self.path_points_[self.path_points_.length - 1].s - self.path_points_[0].s) ∧
    (pathOf [0, 1, 2, 3]).Length = 3 ∧
    (∀ p : PathPoint, (DiscretizedPath.create [p]).Length = 0) := by
  refine ⟨?_, ?_, ?_, ?_⟩
  · intro h
    simp [DiscretizedPath.Length, h]
  · intro hpos
    have hne : self.path_points_ ≠ [] := List.length_pos.mp hpos
    have hl : self.path_points_.length - 1 < self.path_points_.length := by omega
    refine ⟨?_, ?_, ?_⟩
    · simp [DiscretizedPath.StartPoint, DiscretizedPath.front, hne,
        List.getElem?_eq_getElem hpos]
    · simp [DiscretizedPath.EndPoint, DiscretizedPath.back, hne,
        List.getElem?_eq_getElem hl]
    · simp [DiscretizedPath.Length, DiscretizedPath.front, DiscretizedPath.back, hne,
        List.getElem?_eq_getElem hpos, List.getElem?_eq_getElem hl]
  · norm_num [pathOf, pointAt, DiscretizedPath.Length, DiscretizedPath.front,
      DiscretizedPath.back]
  · intro p
    simp [DiscretizedPath.create, DiscretizedPath.Length, DiscretizedPath.front,
      DiscretizedPath.back]

/-- C16 at the path with `s = [0, 2, 4]`. -/
theorem C16_Length_witness :
    ∃ h : 0 < (pathOf [0, 2, 4]).path_points_.length,
      (pathOf [0, 2, 4]).Length
        = (pathOf [0, 2, 4]).path_points_[(pathOf [0, 2, 4]).path_points_.length - 1].s
          - (pathOf [0, 2, 4]).path_points_[0].s :=
  have h : 0 < (pathOf [0, 2, 4]).path_points_.length := by simp [pathOf]
  ⟨h, ((C16_Length (pathOf [0, 2, 4])).2.1 h).2.2⟩

/-- C17: after `set_path_points(ps)` on any path, `path_points()` is `ps` and
`NumOfPoints()` is the length of `ps`, independently of the old sequence; a
path constructed from `ps` has `path_points()` equal to `ps`; after `Clear()`
on any path `NumOfPoints()` is 0 and `path_points()` is empty. -/
theorem C17_full_replacement (self other : DiscretizedPath) (ps : List PathPoint) :
    (self.set_path_points ps).path_points = ps ∧
    (self.set_path_points ps).NumOfPoints = ps.length ∧
    self.set_path_points ps = other.set_path_points ps ∧
    (DiscretizedPath.create ps).path_points = ps ∧
    self.Clear.NumOfPoints = 0 ∧
    self.Clear.path_points = [] :=
  ⟨rfl, rfl, rfl, rfl, rfl, rfl⟩

/-- C18: on a path sorted by non-decreasing `s`, `Length` is non-negative; on
the unsorted path with `s = [2, 1]` it is negative. -/
theorem C18_Length_sign :
    (∀ self : DiscretizedPath, SortedByS self.path_points_ → 0 ≤ self.Length) ∧
    (¬ SortedByS (pathOf [2, 1]).path_points_ ∧ (pathOf [2, 1]).Length < 0) := by
  constructor
  · intro self hs
    by_cases hnil : self.path_points_ = []
    · simp [DiscretizedPath.Length, hnil]
    · have hpos : 0 < self.path_points_.length := List.length_pos.mpr hnil
      have hl : self.path_points_.length - 1 < self.path_points_.length := by omega
      have hle := sorted_getElem_le self.path_points_ hs 0
        (self.path_points_.length - 1) hpos hl (Nat.zero_le _)
      simp [DiscretizedPath.Length, DiscretizedPath.front, DiscretizedPath.back, hnil,
        List.getElem?_eq_getElem hpos, List.getElem?_eq_getElem hl]
      exact hle
  · norm_num [SortedByS, pathOf, pointAt, DiscretizedPath.Length, DiscretizedPath.front,
      DiscretizedPath.back]

/-- C18 at the sorted path with `s = [0, 1, 2, 3]`. -/
theorem C18_Length_sign_witness :
    SortedByS (pathOf [0, 1, 2, 3]).path_points_ ∧ 0 ≤ (pathOf [0, 1, 2, 3]).Length :=
  have h : SortedByS (pathOf [0, 1, 2, 3]).path_points_ := by
    norm_num [SortedByS, pathOf, pointAt]
  ⟨h, C18_Length_sign.1 (pathOf [0, 1, 2, 3]) h⟩

/-- C19: on a path sorted by non-decreasing `s`, the binary search of
`QueryLowerBound` ends (any iteration bound of at least `NumOfPoints()` gives
the same result) at a position `k` between 0 and `NumOfPoints()` with every
point before `k` below the target and every point from `k` on at or above it;
`k` is `NumOfPoints()` exactly when no point is at or above the target. -/
theorem C19_QueryLowerBound_partition (self : DiscretizedPath) (t : ℚ)
    (hs : SortedByS self.path_points_) :
    ∃ k : Nat, self.QueryLowerBound t = some k ∧
      (∀ fuel, self.path_points_.length ≤ fuel →
        lower_bound self.path_points_ t fuel 0 self.path_points_.length = some k) ∧
      k ≤ self.NumOfPoints ∧
      (∀ j (hj : j < self.path_points_.length), j < k → self.path_points_[j].s < t) ∧
      (∀ j (hj : j < self.path_points_.length), k ≤ j → t ≤ self.path_points_[j].s) ∧
      (k = self.NumOfPoints ↔
        ∀ j (hj : j < self.path_points_.length), ¬ (t ≤ self.path_points_[j].s)) := by
  obtain ⟨k, hk, hkn, hlo, hhi⟩ := DiscretizedPath.QueryLowerBound_sorted self t hs
  refine ⟨k, hk, ?_, hkn, hlo, hhi, ?_⟩
  · intro fuel hfuel
    obtain ⟨m, hm, hmn, hmlo, hmhi⟩ :=
      lower_bound_partition self.path_points_ t hs fuel 0 self.path_points_.length hfuel
        (by omega) (fun j _ h => absurd h (Nat.not_lt_zero j)) (fun j hj h => by omega)
    have : m = k := by
      rcases Nat.lt_trichotomy m k with h | h | h
      · exact absurd (hlo m (by omega) h) (not_lt.mpr (hmhi m (by omega) (le_refl _)))
      · exact h
      · exact absurd (hmlo k (by omega) h) (not_lt.mpr (hhi k (by omega) (le_refl _)))
    rw [hm, this]
  · unfold DiscretizedPath.NumOfPoints
    constructor
    · intro h j hj
      exact not_le.mpr (hlo j hj (by omega))
    · intro h
      by_contra hcon
      exact h k (by omega) (hhi k (by omega) (le_refl _))

/-- C19 at the path with `s = [0, 1, 2, 3]` and target `3/2`. -/
theorem C19_QueryLowerBound_partition_witness :
    SortedByS (pathOf [0, 1, 2, 3]).path_points_ ∧
    ∃ k : Nat, (pathOf [0, 1, 2, 3]).QueryLowerBound (3 / 2) = some k ∧
      (∀ fuel, (pathOf [0, 1, 2, 3]).path_points_.length ≤ fuel →
        lower_bound (pathOf [0, 1, 2, 3]).path_points_ (3 / 2) fuel 0
          (pathOf [0, 1, 2, 3]).path_points_.length = some k) ∧
      k ≤ (pathOf [0, 1, 2, 3]).NumOfPoints ∧
      (∀ j (hj : j < (pathOf [0, 1, 2, 3]).path_points_.length), j < k →
        (pathOf [0, 1, 2, 3]).path_points_[j].s < 3 / 2) ∧
      (∀ j (hj : j < (pathOf [0, 1, 2, 3]).path_points_.length), k ≤ j →
        3 / 2 ≤ (pathOf [0, 1, 2, 3]).path_points_[j].s) ∧
      (k = (pathOf [0, 1, 2, 3]).NumOfPoints ↔
        ∀ j (hj : j < (pathOf [0, 1, 2, 3]).path_points_.length),
          ¬ (3 / 2 ≤ (pathOf [0, 1, 2, 3]).path_points_[j].s)) :=
  have h : SortedByS (pathOf [0, 1, 2, 3]).path_points_ := by
    norm_num [SortedByS, pathOf, pointAt]
  ⟨h, C19_QueryLowerBound_partition (pathOf [0, 1, 2, 3]) (3 / 2) h⟩

/-- C20: on a non-empty path sorted by non-decreasing `s`, `QueryClosestPoint`
is monotone: a larger target never gets a smaller index. -/
theorem C20_QueryClosestPoint_monotone (self : DiscretizedPath) (t1 t2 : ℚ)
    (hpos : 0 < self.path_points_.length) (hs : SortedByS self.path_points_)
    (hle : t1 ≤ t2) :
    ∃ r1 r2 : Int, self.QueryClosestPoint t1 = .ok r1 ∧
      self.QueryClosestPoint t2 = .ok r2 ∧ r1 ≤ r2 := by
  obtain ⟨k1, hk1, hk1n, hlo1, _⟩ := DiscretizedPath.QueryLowerBound_sorted self t1 hs
  obtain ⟨k2, hk2, hk2n, _, hhi2⟩ := DiscretizedPath.QueryLowerBound_sorted self t2 hs
  have hk12 : k1 ≤ k2 := by
    by_contra hcon
    have h1 := hlo1 k2 (by omega) (by omega)
    have h2 := hhi2 k2 (by omega) (le_refl _)
    linarith
  obtain ⟨r1, hr1, hr1n, hr1lo, hr1hi⟩ :=
    DiscretizedPath.QueryClosestPoint_near_lower_bound self t1 k1 hpos hk1n hk1
  obtain ⟨r2, hr2, hr2n, hr2lo, hr2hi⟩ :=
    DiscretizedPath.QueryClosestPoint_near_lower_bound self t2 k2 hpos hk2n hk2
  rcases Nat.lt_or_ge k1 k2 with hlt | hge
  · exact ⟨r1, r2, hr1, hr2, by omega⟩
  · have hkk : k1 = k2 := by omega
    subst hkk
    by_cases hk0 : k1 = 0
    · exact ⟨r1, r2, hr1, hr2, by omega⟩
    · by_cases hke : k1 = self.path_points_.length
      · exact ⟨r1, r2, hr1, hr2, by omega⟩
      · have hkl : k1 < self.path_points_.length := by omega
        have e1 := DiscretizedPath.QueryClosestPoint_inner self t1 k1 hk0 hkl hk1
        have e2 := DiscretizedPath.QueryClosestPoint_inner self t2 k1 hk0 hkl hk2
        by_cases hd1 : t1 - self.path_points_[k1 - 1].s < self.path_points_[k1].s - t1
        · rw [if_pos hd1] at e1
          by_cases hd2 : t2 - self.path_points_[k1 - 1].s < self.path_points_[k1].s - t2
          · rw [if_pos hd2] at e2
            exact ⟨_, _, e1, e2, le_refl _⟩
          · rw [if_neg hd2] at e2
            exact ⟨_, _, e1, e2, by omega⟩
        · rw [if_neg hd1] at e1
          have hd2 : ¬ (t2 - self.path_points_[k1 - 1].s
              < self.path_points_[k1].s - t2) := by
            intro h
            exact hd1 (by linarith)
          rw [if_neg hd2] at e2
          exact ⟨_, _, e1, e2, le_refl _⟩

/-- C20 at the path with `s = [0, 1, 2, 3]` and the targets `3/2` and `29/10`. -/
theorem C20_QueryClosestPoint_monotone_witness :
    0 < (pathOf [0, 1, 2, 3]).path_points_.length ∧
    SortedByS (pathOf [0, 1, 2, 3]).path_points_ ∧ (3 / 2 : ℚ) ≤ 29 / 10 ∧
    ∃ r1 r2 : Int, (pathOf [0, 1, 2, 3]).QueryClosestPoint (3 / 2) = .ok r1 ∧
      (pathOf [0, 1, 2, 3]).QueryClosestPoint (29 / 10) = .ok r2 ∧ r1 ≤ r2 :=
  have h1 : 0 < (pathOf [0, 1, 2, 3]).path_points_.length := by simp [pathOf]
  have h2 : SortedByS (pathOf [0, 1, 2, 3]).path_points_ := by
    norm_num [SortedByS, pathOf, pointAt]
  have h3 : (3 / 2 : ℚ) ≤ 29 / 10 := by norm_num
  ⟨h1, h2, h3, C20_QueryClosestPoint_monotone (pathOf [0, 1, 2, 3]) (3 / 2) (29 / 10)
    h1 h2 h3⟩

end planning
end apollo
